import Mathlib

/-!
Verification of the `dbtasks` scheduling core (`src/dbtasks/crontab.py`,
`src/dbtasks/periodic.py`, `src/dbtasks/runner.py`) against its
natural-language specification.

Shallow embedding conventions:
* Python `datetime` values are modelled by `DT`: a count of whole minutes
  since 0001-01-01 00:00 (proleptic Gregorian, as Python's `datetime`
  calendar), together with the sub-minute remainder in microseconds
  (`second * 1000000 + microsecond`).  Adding `timedelta(minutes=1)` is
  `mins + 1`; `replace(second=0, microsecond=0)` zeroes `sub`; datetime
  comparison is lexicographic on `(mins, sub)` which coincides with
  chronological order.  Years are unbounded (Python's 1..9999 bound is not
  modelled; no claim depends on it).
* Fallible Python code returns `Except CronErr`; `CronErr.parseError`
  stands for `CrontabParseError`, `CronErr.exhausted` for
  `CrontabExhausted`, and `CronErr.valueError` for Python's builtin
  `ValueError` (raised by `int(...)` on a non-integer string, by slicing
  with step 0, and by `datetime.replace` on an invalid date).
* `random.randint(lo, hi)` is modelled by an externally supplied draw
  `r : Nat` mapped into the range as `lo + r % (hi + 1 - lo)`; every
  possible randint outcome corresponds to some `r`.
* Strings are processed as `List Char`; `str.isdigit` is modelled for
  ASCII digits (non-ASCII digit characters and underscore grouping in
  `int()` literals are not modelled; no claim depends on them).
-/

namespace DbTasks

/-! ## Calendar primitives (proleptic Gregorian, as Python `datetime`) -/

/-- Gregorian leap-year test. -/
def isLeap (y : Nat) : Bool := y % 4 == 0 && (y % 100 != 0 || y % 400 == 0)

/-- Number of days in month `m` of year `y`. -/
def daysInMonth (y m : Nat) : Nat :=
  if m = 2 then (if isLeap y then 29 else 28)
  else if m = 4 ∨ m = 6 ∨ m = 9 ∨ m = 11 then 30
  else 31

/-- Days in the year strictly before month `m` (1-based). -/
def daysBeforeMonth (leap : Bool) (m : Nat) : Nat :=
  (match m with
   | 1 => 0 | 2 => 31 | 3 => 59 | 4 => 90 | 5 => 120 | 6 => 151
   | 7 => 181 | 8 => 212 | 9 => 243 | 10 => 273 | 11 => 304 | _ => 334)
  + (if leap && decide (3 ≤ m) then 1 else 0)

/-- Day number (0 = 0001-01-01) of the civil date `(y, m, d)`. -/
def daysFromCivil (y m d : Nat) : Nat :=
  365 * (y - 1) + (y - 1) / 4 - (y - 1) / 100 + (y - 1) / 400
    + daysBeforeMonth (isLeap y) m + (d - 1)

/-- Month and day-of-month from a 0-based day-of-year. -/
def monthDayOfYearDay (leap : Bool) (yd : Nat) : Nat × Nat :=
  if yd < daysBeforeMonth leap 2 then (1, yd + 1)
  else if yd < daysBeforeMonth leap 3 then (2, yd - daysBeforeMonth leap 2 + 1)
  else if yd < daysBeforeMonth leap 4 then (3, yd - daysBeforeMonth leap 3 + 1)
  else if yd < daysBeforeMonth leap 5 then (4, yd - daysBeforeMonth leap 4 + 1)
  else if yd < daysBeforeMonth leap 6 then (5, yd - daysBeforeMonth leap 5 + 1)
  else if yd < daysBeforeMonth leap 7 then (6, yd - daysBeforeMonth leap 6 + 1)
  else if yd < daysBeforeMonth leap 8 then (7, yd - daysBeforeMonth leap 7 + 1)
  else if yd < daysBeforeMonth leap 9 then (8, yd - daysBeforeMonth leap 8 + 1)
  else if yd < daysBeforeMonth leap 10 then (9, yd - daysBeforeMonth leap 9 + 1)
  else if yd < daysBeforeMonth leap 11 then (10, yd - daysBeforeMonth leap 10 + 1)
  else if yd < daysBeforeMonth leap 12 then (11, yd - daysBeforeMonth leap 11 + 1)
  else (12, yd - daysBeforeMonth leap 12 + 1)

/-- Civil date `(y, m, d)` of day number `n` (0 = 0001-01-01), by 400/100/4/1
year cycle decomposition. -/
def civilFromDays (n : Nat) : Nat × Nat × Nat :=
  let n400 := n / 146097
  let r1 := n % 146097
  let n100 := min (r1 / 36524) 3
  let r2 := r1 - n100 * 36524
  let n4 := r2 / 1461
  let r3 := r2 % 1461
  let n1 := min (r3 / 365) 3
  let yd := r3 - n1 * 365
  let y := 400 * n400 + 100 * n100 + 4 * n4 + n1 + 1
  let md := monthDayOfYearDay (isLeap y) yd
  (y, md.1, md.2)

/-! ## Datetimes -/

/-- A naive Python `datetime`: whole minutes since 0001-01-01 00:00 plus the
sub-minute part in microseconds. -/
structure DT where
  mins : Nat
  sub : Nat
deriving DecidableEq

/-- Chronological (= Python datetime) order. -/
def DT.lt (a b : DT) : Prop := a.mins < b.mins ∨ (a.mins = b.mins ∧ a.sub < b.sub)

instance : LT DT := ⟨DT.lt⟩

instance (a b : DT) : Decidable (a < b) :=
  inferInstanceAs (Decidable (a.mins < b.mins ∨ (a.mins = b.mins ∧ a.sub < b.sub)))

/-- `dt.minute`. -/
def DT.minuteOf (t : DT) : Nat := t.mins % 60

/-- `dt.hour`. -/
def DT.hourOf (t : DT) : Nat := t.mins / 60 % 24

/-- Day number since 0001-01-01. -/
def DT.dayNum (t : DT) : Nat := t.mins / 1440

/-- `dt.year`. -/
def DT.yearOf (t : DT) : Nat := (civilFromDays t.dayNum).1

/-- `dt.month`. -/
def DT.monthOf (t : DT) : Nat := (civilFromDays t.dayNum).2.1

/-- `dt.day`. -/
def DT.dayOf (t : DT) : Nat := (civilFromDays t.dayNum).2.2

/-- `dt.isoweekday()` (Monday = 1 .. Sunday = 7; 0001-01-01 was a Monday). -/
def DT.isoweekday (t : DT) : Nat := t.dayNum % 7 + 1

/-- `dt + timedelta(minutes=1)`. -/
def DT.addMinute (t : DT) : DT := ⟨t.mins + 1, t.sub⟩

/-- `dt.replace(second=0, microsecond=0)`. -/
def DT.floorMinute (t : DT) : DT := ⟨t.mins, 0⟩

/-- Build a whole-minute datetime from civil fields. -/
def mkDT (y m d hh mm : Nat) : DT := ⟨daysFromCivil y m d * 1440 + hh * 60 + mm, 0⟩

/-- `dt.replace(year=dt.year + 1)`: `none` models the `ValueError` Python
raises when the resulting calendar date does not exist. -/
def DT.replaceYearPlusOne (t : DT) : Option DT :=
  let c := civilFromDays t.dayNum
  if c.2.2 ≤ daysInMonth (c.1 + 1) c.2.1 then
    some ⟨daysFromCivil (c.1 + 1) c.2.1 c.2.2 * 1440 + t.mins % 1440, t.sub⟩
  else none

/-! ## Errors -/

/-- Exceptions escaping the crontab code: `CrontabParseError`,
`CrontabExhausted`, and Python's builtin `ValueError`. -/
inductive CronErr
  | parseError
  | valueError
  | exhausted
deriving DecidableEq

/-! ## String helpers (Python `str` methods on `List Char`) -/

abbrev Chars := List Char

/-- `s.split(ch)`: split on every occurrence, preserving empty pieces. -/
def splitEvery (ch : Char) : Chars → List Chars
  | [] => [[]]
  | c :: cs =>
    match splitEvery ch cs with
    | [] => [[]]
    | r :: rs => if c = ch then [] :: r :: rs else (c :: r) :: rs

/-- Helper for `splitWs`; `acc` holds the current word reversed. -/
def splitWsAux : Chars → Chars → List Chars
  | [], acc => if acc = [] then [] else [acc.reverse]
  | c :: cs, acc =>
    if c.isWhitespace then
      if acc = [] then splitWsAux cs [] else acc.reverse :: splitWsAux cs []
    else splitWsAux cs (c :: acc)

/-- `s.split(None)`: split on whitespace runs, dropping empty pieces. -/
def splitWs (s : Chars) : List Chars := splitWsAux s []

/-- `s.split(ch, 1)`: the pieces before and after the first occurrence of
`ch` (meaningful only when `ch` occurs in `s`). -/
def splitOnce (ch : Char) : Chars → Chars × Chars
  | [] => ([], [])
  | c :: cs =>
    if c = ch then ([], cs)
    else
      let p := splitOnce ch cs
      (c :: p.1, p.2)

/-- `s.isdigit()` (ASCII digits). -/
def isDigits (s : Chars) : Bool := !s.isEmpty && s.all Char.isDigit

/-- Numeric value of an ASCII digit string. -/
def digitsVal (s : Chars) : Nat := s.foldl (fun acc c => acc * 10 + (c.toNat - 48)) 0

/-- Python `int(s)`: optional surrounding whitespace, optional sign, digits;
anything else raises `ValueError`. -/
def pyInt (s : Chars) : Except CronErr Int :=
  match ((s.dropWhile Char.isWhitespace).reverse.dropWhile Char.isWhitespace).reverse with
  | [] => .error .valueError
  | c :: rest =>
    if c = '+' then (if isDigits rest then .ok (digitsVal rest) else .error .valueError)
    else if c = '-' then (if isDigits rest then .ok (-(digitsVal rest : Int)) else .error .valueError)
    else if isDigits (c :: rest) then .ok (digitsVal (c :: rest)) else .error .valueError

/-- `part[:3].lower()`. -/
def lower3 (s : Chars) : Chars := (s.take 3).map Char.toLower

/-! ## `CrontabParser` -/

/-- A field parser bound to a numeric range and an optional name table (the
table is stored as produced by `__init__`: keys already truncated to three
lowercase characters, values already range-checked). -/
structure CrontabParser where
  min_value : Int
  max_value : Int
  names : List (Chars × Int) := []

namespace CrontabParser

/-- `_range_check`. -/
def range_check (P : CrontabParser) (n : Int) : Except CronErr Int :=
  if n < P.min_value ∨ n > P.max_value then .error .parseError else .ok n

/-- `names.get(key)` (the tables have distinct keys, so first-match
association lookup coincides with Python's dict). -/
def findName (names : List (Chars × Int)) (k : Chars) : Option Int :=
  match names with
  | [] => none
  | p :: rest => if p.1 = k then some p.2 else findName rest k

/-- `_get_value`.  The walrus test `if value := names.get(...)` is a
truthiness test, so a name resolving to `0` would fall through to the
parse error. -/
def get_value (P : CrontabParser) (part : Chars) : Except CronErr Int :=
  if isDigits part then P.range_check (digitsVal part)
  else
    match findName P.names (lower3 part) with
    | some v => if v ≠ 0 then .ok v else .error .parseError
    | none => .error .parseError

/-- `intRangeAux lo n = [lo, lo+1, ..., lo+n-1]`. -/
def intRangeAux (lo : Int) : Nat → List Int
  | 0 => []
  | n + 1 => lo :: intRangeAux (lo + 1) n

/-- `list(range(lo, hi + 1))`. -/
def intRange (lo hi : Int) : List Int := intRangeAux lo (hi + 1 - lo).toNat

/-- `values[::k]` for `k ≥ 1`: every `k`-th element of the list. -/
def sliceStep (xs : List Int) (k : Nat) : List Int :=
  (xs.enum.filter (fun p => p.1 % k == 0)).map (fun p => p.2)

/-- The branches of `parse_part` other than `/step`, i.e. the atoms `*`,
`~`, `lo-hi` and plain values; `r` is the random draw used by `~`. -/
def parse_atom (P : CrontabParser) (r : Nat) (part : Chars) : Except CronErr (List Int) :=
  if part = ['*'] then .ok (intRange P.min_value P.max_value)
  else if part = ['~'] then
    .ok [P.min_value + (r : Int) % (P.max_value + 1 - P.min_value)]
  else if '-' ∈ part then
    match P.get_value (splitOnce '-' part).1 with
    | .error e => .error e
    | .ok lo =>
      match P.get_value (splitOnce '-' part).2 with
      | .error e => .error e
      | .ok hi =>
        if lo > hi then .error .parseError else .ok (intRange lo hi)
  else
    match P.get_value part with
    | .error e => .error e
    | .ok v => .ok [v]

/-- `parse_part`.  In the source the `/step` branch recursively calls
`parse_part` on the text before the first `/`; that text contains no `/`,
so the recursive call always lands in the other branches, embedded here as
`parse_atom`.  `int(step)` raising is `valueError`; a step of `0` passes
`_range_check` when `min_value = 0` and then `values[::0]` raises
`ValueError` (after the value part was parsed). -/
def parse_part (P : CrontabParser) (r : Nat) (part : Chars) : Except CronErr (List Int) :=
  if '/' ∈ part then
    match pyInt (splitOnce '/' part).2 with
    | .error e => .error e
    | .ok st =>
      match P.range_check st with
      | .error e => .error e
      | .ok st =>
        match P.parse_atom r (splitOnce '/' part).1 with
        | .error e => .error e
        | .ok values =>
          if st = 0 then .error .valueError else .ok (sliceStep values st.toNat)
  else P.parse_atom r part

/-- Sorted duplicate-free insertion; folding it models `sorted(set(...))`. -/
def insertSorted (x : Int) : List Int → List Int
  | [] => [x]
  | y :: ys => if x < y then x :: y :: ys else if x = y then y :: ys else y :: insertSorted x ys

/-- `list(sorted(values))` for the set `values` accumulated by `parse`. -/
def dedupSort (l : List Int) : List Int := l.foldr insertSorted []

/-- The `values.update(parse_part(part))` loop of `parse`; `r i` is the
random draw used by a `~` in the `i`-th comma-separated part. -/
def parseParts (P : CrontabParser) (r : Nat → Nat) : Nat → List Chars → Except CronErr (List Int)
  | _, [] => .ok []
  | i, p :: ps =>
    match P.parse_part (r i) p with
    | .error e => .error e
    | .ok vs =>
      match parseParts P r (i + 1) ps with
      | .error e => .error e
      | .ok rest => .ok (vs ++ rest)

/-- `parse`. -/
def parse (P : CrontabParser) (r : Nat → Nat) (spec : Chars) : Except CronErr (List Int) :=
  match parseParts P r 0 (splitEvery ',' spec) with
  | .error e => .error e
  | .ok vs => .ok (dedupSort vs)

end CrontabParser

/-! ## Lemmas for the field-parser properties (C4, C5) -/

namespace CrontabParser

theorem findName_mem (names : List (Chars × Int)) (k : Chars) (v : Int)
    (h : findName names k = some v) : ∃ p ∈ names, p.2 = v := by
  induction names with
  | nil => simp [findName] at h
  | cons p rest ih =>
    rw [findName] at h
    split_ifs at h with h1
    · exact ⟨p, List.mem_cons_self p rest, Option.some.inj h⟩
    · obtain ⟨q, hq, hv⟩ := ih h
      exact ⟨q, List.mem_cons_of_mem p hq, hv⟩

theorem insertSorted_mem (x : Int) (l : List Int) (a : Int) :
    a ∈ insertSorted x l ↔ a = x ∨ a ∈ l := by
  induction l with
  | nil => simp [insertSorted]
  | cons y ys ih =>
    rw [insertSorted]
    split_ifs with h1 h2
    · simp
    · subst h2
      simp
    · simp only [List.mem_cons, ih]
      tauto

theorem insertSorted_ne_nil (x : Int) (l : List Int) : insertSorted x l ≠ [] := by
  cases l with
  | nil => simp [insertSorted]
  | cons y ys => rw [insertSorted]; split_ifs <;> simp

theorem insertSorted_sorted (x : Int) (l : List Int) (h : List.Sorted (· < ·) l) :
    List.Sorted (· < ·) (insertSorted x l) := by
  induction l with
  | nil => simp [insertSorted]
  | cons y ys ih =>
    rw [List.sorted_cons] at h
    rw [insertSorted]
    split_ifs with h1 h2
    · rw [List.sorted_cons]
      refine ⟨?_, List.sorted_cons.mpr h⟩
      intro b hb
      rcases List.mem_cons.mp hb with rfl | hb
      · exact h1
      · exact lt_trans h1 (h.1 b hb)
    · exact List.sorted_cons.mpr h
    · rw [List.sorted_cons]
      refine ⟨?_, ih h.2⟩
      intro b hb
      rcases (insertSorted_mem x ys b).mp hb with rfl | hb
      · omega
      · exact h.1 b hb

theorem insertSorted_of_forall_lt (x : Int) (l : List Int) (h : ∀ b ∈ l, x < b) :
    insertSorted x l = x :: l := by
  cases l with
  | nil => rfl
  | cons y ys =>
    rw [insertSorted, if_pos (h y (List.mem_cons_self y ys))]

theorem dedupSort_cons (a : Int) (l : List Int) :
    dedupSort (a :: l) = insertSorted a (dedupSort l) := rfl

theorem dedupSort_sorted (l : List Int) : List.Sorted (· < ·) (dedupSort l) := by
  induction l with
  | nil => simp [dedupSort]
  | cons a l ih => rw [dedupSort_cons]; exact insertSorted_sorted a _ ih

theorem dedupSort_nodup (l : List Int) : (dedupSort l).Nodup :=
  List.Pairwise.imp (fun h => ne_of_lt h) (dedupSort_sorted l)

theorem dedupSort_mem (l : List Int) (a : Int) : a ∈ dedupSort l ↔ a ∈ l := by
  induction l with
  | nil => simp [dedupSort]
  | cons b l ih =>
    rw [dedupSort_cons, insertSorted_mem, ih]
    simp

theorem dedupSort_ne_nil (l : List Int) (h : l ≠ []) : dedupSort l ≠ [] := by
  cases l with
  | nil => exact absurd rfl h
  | cons a l => rw [dedupSort_cons]; exact insertSorted_ne_nil a _

theorem dedupSort_of_sorted (l : List Int) (h : List.Sorted (· < ·) l) :
    dedupSort l = l := by
  induction l with
  | nil => rfl
  | cons a l ih =>
    rw [List.sorted_cons] at h
    rw [dedupSort_cons, ih h.2, insertSorted_of_forall_lt a l h.1]

theorem mem_intRangeAux (lo : Int) (n : Nat) (a : Int) :
    a ∈ intRangeAux lo n ↔ lo ≤ a ∧ a < lo + n := by
  induction n generalizing lo with
  | zero => simp [intRangeAux]
  | succ n ih =>
    rw [intRangeAux]
    simp only [List.mem_cons, ih]
    omega

theorem mem_intRange (lo hi a : Int) : a ∈ intRange lo hi ↔ lo ≤ a ∧ a ≤ hi := by
  rw [intRange, mem_intRangeAux]
  omega

theorem intRange_ne_nil (lo hi : Int) (h : lo ≤ hi) : intRange lo hi ≠ [] := by
  have : lo ∈ intRange lo hi := (mem_intRange lo hi lo).mpr ⟨le_refl lo, h⟩
  intro hc
  rw [hc] at this
  simp at this

theorem sliceStep_subset (xs : List Int) (k : Nat) : sliceStep xs k ⊆ xs := by
  intro a ha
  obtain ⟨p, hp, he⟩ := List.mem_map.mp ha
  have h1 : p ∈ xs.enum := List.mem_of_mem_filter hp
  have h2 : p.2 ∈ xs.enum.map Prod.snd := List.mem_map_of_mem Prod.snd h1
  rw [List.enum_map_snd] at h2
  rw [← he]
  exact h2

theorem sliceStep_ne_nil (xs : List Int) (k : Nat) (h : xs ≠ []) : sliceStep xs k ≠ [] := by
  cases xs with
  | nil => exact absurd rfl h
  | cons x rest =>
    have : x ∈ sliceStep (x :: rest) k := by
      simp only [sliceStep, List.mem_map]
      refine ⟨(0, x), ?_, rfl⟩
      rw [List.mem_filter]
      exact ⟨by simp [List.enum], by simp⟩
    intro hc
    rw [hc] at this
    simp at this

theorem range_check_ok (P : CrontabParser) (n v : Int) (h : P.range_check n = .ok v) :
    v = n ∧ P.min_value ≤ n ∧ n ≤ P.max_value := by
  rw [range_check] at h
  by_cases h1 : n < P.min_value ∨ n > P.max_value
  · rw [if_pos h1] at h
    exact absurd h (by simp)
  · rw [if_neg h1] at h
    refine ⟨(Except.ok.inj h).symm, ?_, ?_⟩ <;> omega

theorem get_value_range (P : CrontabParser) (part : Chars) (v : Int)
    (hnames : ∀ p ∈ P.names, P.min_value ≤ p.2 ∧ p.2 ≤ P.max_value)
    (h : P.get_value part = .ok v) : P.min_value ≤ v ∧ v ≤ P.max_value := by
  rw [get_value] at h
  by_cases h1 : isDigits part = true
  · rw [if_pos h1] at h
    obtain ⟨hv, hr⟩ := range_check_ok P _ v h
    omega
  · rw [if_neg h1] at h
    cases hf : findName P.names (lower3 part) with
    | none => rw [hf] at h; exact absurd h (by simp)
    | some w =>
      rw [hf] at h
      have h3 : (if w ≠ 0 then Except.ok w else Except.error CronErr.parseError)
          = Except.ok v := h
      by_cases h2 : w ≠ 0
      · rw [if_pos h2] at h3
        obtain ⟨p, hp, hpv⟩ := findName_mem _ _ _ hf
        have := hnames p hp
        have hv : w = v := Except.ok.inj h3
        omega
      · rw [if_neg h2] at h3
        exact absurd h3 (by simp)

end CrontabParser

theorem splitEvery_ne_nil (ch : Char) (s : Chars) : splitEvery ch s ≠ [] := by
  cases s with
  | nil => simp [splitEvery]
  | cons c cs =>
    rw [splitEvery]
    cases splitEvery ch cs with
    | nil => simp
    | cons r rs => split_ifs <;> simp

namespace CrontabParser

/-- A successfully parsed atom is a non-empty list of in-range values. -/
theorem parse_atom_ok (P : CrontabParser) (r : Nat) (part : Chars) (vs : List Int)
    (hrange : P.min_value ≤ P.max_value)
    (hnames : ∀ p ∈ P.names, P.min_value ≤ p.2 ∧ p.2 ≤ P.max_value)
    (h : P.parse_atom r part = .ok vs) :
    vs ≠ [] ∧ ∀ v ∈ vs, P.min_value ≤ v ∧ v ≤ P.max_value := by
  rw [parse_atom] at h
  by_cases hstar : part = ['*']
  · rw [if_pos hstar] at h
    have hv : intRange P.min_value P.max_value = vs := Except.ok.inj h
    subst hv
    exact ⟨intRange_ne_nil _ _ hrange, fun v hv => (mem_intRange _ _ v).mp hv⟩
  · rw [if_neg hstar] at h
    by_cases htil : part = ['~']
    · rw [if_pos htil] at h
      have hv : [P.min_value + (r : Int) % (P.max_value + 1 - P.min_value)] = vs :=
        Except.ok.inj h
      subst hv
      refine ⟨by simp, fun v hv => ?_⟩
      rw [List.mem_singleton] at hv
      subst hv
      have hpos : (0 : Int) < P.max_value + 1 - P.min_value := by omega
      have h1 := Int.emod_nonneg (r : Int) (by omega : P.max_value + 1 - P.min_value ≠ 0)
      have h2 := Int.emod_lt_of_pos (r : Int) hpos
      omega
    · rw [if_neg htil] at h
      by_cases hdash : '-' ∈ part
      · rw [if_pos hdash] at h
        cases hlo : P.get_value (splitOnce '-' part).1 with
        | error e => simp [hlo] at h
        | ok lo =>
          simp only [hlo] at h
          cases hhi : P.get_value (splitOnce '-' part).2 with
          | error e => simp [hhi] at h
          | ok hi =>
            simp only [hhi] at h
            by_cases hgt : lo > hi
            · rw [if_pos hgt] at h
              exact absurd h (by simp)
            · rw [if_neg hgt] at h
              have hv : intRange lo hi = vs := Except.ok.inj h
              subst hv
              have hbl := get_value_range P _ lo hnames hlo
              have hbh := get_value_range P _ hi hnames hhi
              refine ⟨intRange_ne_nil _ _ (by omega), fun v hv => ?_⟩
              rw [mem_intRange] at hv
              omega
      · rw [if_neg hdash] at h
        cases hg : P.get_value part with
        | error e => simp [hg] at h
        | ok v0 =>
          simp only [hg] at h
          have hv : [v0] = vs := Except.ok.inj h
          subst hv
          refine ⟨by simp, fun v hv => ?_⟩
          rw [List.mem_singleton] at hv
          subst hv
          exact get_value_range P _ v hnames hg

/-- A successfully parsed part (atom possibly with `/step`) is a non-empty
list of in-range values. -/
theorem parse_part_ok (P : CrontabParser) (r : Nat) (part : Chars) (vs : List Int)
    (hrange : P.min_value ≤ P.max_value)
    (hnames : ∀ p ∈ P.names, P.min_value ≤ p.2 ∧ p.2 ≤ P.max_value)
    (h : P.parse_part r part = .ok vs) :
    vs ≠ [] ∧ ∀ v ∈ vs, P.min_value ≤ v ∧ v ≤ P.max_value := by
  rw [parse_part] at h
  by_cases hsl : '/' ∈ part
  · rw [if_pos hsl] at h
    cases hst : pyInt (splitOnce '/' part).2 with
    | error e => simp [hst] at h
    | ok st =>
      simp only [hst] at h
      cases hrc : P.range_check st with
      | error e => simp [hrc] at h
      | ok st2 =>
        simp only [hrc] at h
        cases ha : P.parse_atom r (splitOnce '/' part).1 with
        | error e => simp [ha] at h
        | ok values =>
          simp only [ha] at h
          obtain ⟨hne, hbds⟩ := parse_atom_ok P r _ values hrange hnames ha
          by_cases hz : st2 = 0
          · rw [if_pos hz] at h
            exact absurd h (by simp)
          · rw [if_neg hz] at h
            have hv : sliceStep values st2.toNat = vs := Except.ok.inj h
            subst hv
            exact ⟨sliceStep_ne_nil values _ hne,
              fun v hv => hbds v (sliceStep_subset values _ hv)⟩
  · rw [if_neg hsl] at h
    exact parse_atom_ok P r part vs hrange hnames h

/-- The part loop of `parse` concatenates non-empty in-range lists. -/
theorem parseParts_ok (P : CrontabParser) (r : Nat → Nat)
    (hrange : P.min_value ≤ P.max_value)
    (hnames : ∀ p ∈ P.names, P.min_value ≤ p.2 ∧ p.2 ≤ P.max_value) :
    ∀ (parts : List Chars) (i : Nat) (vs : List Int),
      parseParts P r i parts = .ok vs →
      (parts ≠ [] → vs ≠ []) ∧ ∀ v ∈ vs, P.min_value ≤ v ∧ v ≤ P.max_value := by
  intro parts
  induction parts with
  | nil =>
    intro i vs h
    rw [parseParts] at h
    have hv : ([] : List Int) = vs := Except.ok.inj h
    subst hv
    exact ⟨fun hc => absurd rfl hc, by simp⟩
  | cons p ps ih =>
    intro i vs h
    rw [parseParts] at h
    cases hp : P.parse_part (r i) p with
    | error e => rw [hp] at h; exact absurd h (by simp)
    | ok vs0 =>
      rw [hp] at h
      cases hps : parseParts P r (i + 1) ps with
      | error e => rw [hps] at h; exact absurd h (by simp)
      | ok rest =>
        rw [hps] at h
        have hv : vs0 ++ rest = vs := Except.ok.inj h
        subst hv
        obtain ⟨hne0, hbds0⟩ := parse_part_ok P (r i) p vs0 hrange hnames hp
        obtain ⟨_, hbdsr⟩ := ih (i + 1) rest hps
        refine ⟨fun _ => ?_, fun v hv => ?_⟩
        · simp [hne0]
        · rcases List.mem_append.mp hv with h' | h'
          · exact hbds0 v h'
          · exact hbdsr v h'

/-- C4 core: a successful `parse` returns a non-empty, strictly ascending,
duplicate-free list of in-range values. -/
theorem parse_ok (P : CrontabParser) (r : Nat → Nat) (spec : Chars) (out : List Int)
    (hrange : P.min_value ≤ P.max_value)
    (hnames : ∀ p ∈ P.names, P.min_value ≤ p.2 ∧ p.2 ≤ P.max_value)
    (h : P.parse r spec = .ok out) :
    out ≠ [] ∧ List.Sorted (· < ·) out ∧ out.Nodup ∧
      ∀ v ∈ out, P.min_value ≤ v ∧ v ≤ P.max_value := by
  rw [parse] at h
  cases hps : parseParts P r 0 (splitEvery ',' spec) with
  | error e => rw [hps] at h; exact absurd h (by simp)
  | ok vs =>
    rw [hps] at h
    have hv : dedupSort vs = out := Except.ok.inj h
    subst hv
    obtain ⟨hne, hbds⟩ := parseParts_ok P r hrange hnames _ 0 vs hps
    refine ⟨dedupSort_ne_nil vs (hne (splitEvery_ne_nil ',' spec)), dedupSort_sorted vs,
      dedupSort_nodup vs, fun v hv => hbds v ((dedupSort_mem vs v).mp hv)⟩

end CrontabParser

/-! ## Decimal rendering (for the parse idempotence property) -/

/-- The decimal digit character for `n < 10`. -/
def digitChar (n : Nat) : Char :=
  match n with
  | 0 => '0' | 1 => '1' | 2 => '2' | 3 => '3' | 4 => '4'
  | 5 => '5' | 6 => '6' | 7 => '7' | 8 => '8' | _ => '9'

/-- Decimal rendering with explicit fuel (`natToChars` supplies enough). -/
def natToCharsAux : Nat → Nat → Chars
  | 0, _ => []
  | f + 1, n => if n < 10 then [digitChar n] else natToCharsAux f (n / 10) ++ [digitChar (n % 10)]

/-- `str(n)` for a natural number. -/
def natToChars (n : Nat) : Chars := natToCharsAux (n + 1) n

/-- `str(v)` for a non-negative integer. -/
def intToChars (v : Int) : Chars := natToChars v.toNat

/-- `",".join(str(v) for v in l)`. -/
def commaJoin (l : List Int) : Chars := List.intercalate [','] (l.map intToChars)

theorem digitChar_isDigit (n : Nat) (h : n < 10) : (digitChar n).isDigit = true := by
  interval_cases n <;> decide

theorem digitChar_toNat (n : Nat) (h : n < 10) : (digitChar n).toNat = 48 + n := by
  interval_cases n <;> decide

theorem digitsVal_append_digit (a : Chars) (c : Char) :
    digitsVal (a ++ [c]) = digitsVal a * 10 + (c.toNat - 48) := by
  rw [digitsVal, digitsVal, List.foldl_append]
  rfl

theorem natToCharsAux_spec :
    ∀ (f n : Nat), n < 10 ^ (f + 1) →
      digitsVal (natToCharsAux (f + 1) n) = n ∧
      (∀ c ∈ natToCharsAux (f + 1) n, c.isDigit = true) ∧
      natToCharsAux (f + 1) n ≠ [] := by
  intro f
  induction f with
  | zero =>
    intro n h
    have h1 : n < 10 := by simpa using h
    rw [natToCharsAux, if_pos h1]
    refine ⟨?_, ?_, by simp⟩
    · show 0 * 10 + ((digitChar n).toNat - 48) = n
      rw [digitChar_toNat n h1]
      omega
    · intro c hc
      rw [List.mem_singleton] at hc
      subst hc
      exact digitChar_isDigit n h1
  | succ f ih =>
    intro n h
    rw [natToCharsAux]
    by_cases h1 : n < 10
    · rw [if_pos h1]
      refine ⟨?_, ?_, by simp⟩
      · show 0 * 10 + ((digitChar n).toNat - 48) = n
        rw [digitChar_toNat n h1]
        omega
      · intro c hc
        rw [List.mem_singleton] at hc
        subst hc
        exact digitChar_isDigit n h1
    · rw [if_neg h1]
      have hdiv : n / 10 < 10 ^ (f + 1) := by
        refine Nat.div_lt_of_lt_mul ?_
        calc n < 10 ^ (f + 1 + 1) := h
        _ = 10 * 10 ^ (f + 1) := by ring
      obtain ⟨hval, hdig, hne⟩ := ih (n / 10) hdiv
      refine ⟨?_, ?_, by simp⟩
      · rw [digitsVal_append_digit, hval, digitChar_toNat (n % 10) (Nat.mod_lt n (by omega))]
        omega
      · intro c hc
        rcases List.mem_append.mp hc with h' | h'
        · exact hdig c h'
        · rw [List.mem_singleton] at h'
          subst h'
          exact digitChar_isDigit _ (Nat.mod_lt n (by omega))

theorem natToChars_spec (n : Nat) :
    digitsVal (natToChars n) = n ∧
    (∀ c ∈ natToChars n, c.isDigit = true) ∧ natToChars n ≠ [] :=
  natToCharsAux_spec n n
    (lt_of_lt_of_le (Nat.lt_pow_self (by norm_num) n)
      (Nat.pow_le_pow_right (by norm_num) (Nat.le_succ n)))

theorem natToChars_isDigits (n : Nat) : isDigits (natToChars n) = true := by
  obtain ⟨_, hdig, hne⟩ := natToChars_spec n
  rw [isDigits, Bool.and_eq_true, List.all_eq_true]
  refine ⟨?_, fun c hc => hdig c hc⟩
  cases hv : natToChars n with
  | nil => exact absurd hv hne
  | cons c cs => simp

theorem splitEvery_of_not_mem (ch : Char) (s : Chars) (h : ch ∉ s) : splitEvery ch s = [s] := by
  induction s with
  | nil => rfl
  | cons c cs ih =>
    simp only [List.mem_cons, not_or] at h
    rw [splitEvery]
    simp only [ih h.2]
    rw [if_neg (fun hc => h.1 hc.symm)]

theorem splitEvery_append_cons (ch : Char) (p rest : Chars) (h : ch ∉ p) :
    splitEvery ch (p ++ ch :: rest) = p :: splitEvery ch rest := by
  induction p with
  | nil =>
    simp only [List.nil_append]
    rw [splitEvery]
    cases hsp : splitEvery ch rest with
    | nil => exact absurd hsp (splitEvery_ne_nil ch rest)
    | cons r rs =>
      simp [hsp]
  | cons c p ih =>
    simp only [List.mem_cons, not_or] at h
    rw [List.cons_append, splitEvery]
    simp only [ih h.2]
    rw [if_neg (fun hc => h.1 hc.symm)]

theorem splitEvery_intercalate (parts : List Chars) (hne : parts ≠ [])
    (hnc : ∀ p ∈ parts, ',' ∉ p) :
    splitEvery ',' (List.intercalate [','] parts) = parts := by
  induction parts with
  | nil => exact absurd rfl hne
  | cons p ps ih =>
    cases ps with
    | nil =>
      have : List.intercalate [','] ([p] : List Chars) = p := by
        simp [List.intercalate]
      rw [this]
      exact splitEvery_of_not_mem ',' p (hnc p (List.mem_cons_self p []))
    | cons q qs =>
      have hstep : List.intercalate [','] ((p :: q :: qs) : List Chars) =
          p ++ ',' :: List.intercalate [','] ((q :: qs) : List Chars) := by
        simp [List.intercalate, List.intersperse]
      rw [hstep,
        splitEvery_append_cons ',' p _ (hnc p (List.mem_cons_self p _)),
        ih (by simp) (fun x hx => hnc x (List.mem_cons_of_mem p hx))]

/-! ## Error classification (C5) -/

theorem pyInt_error (s : Chars) (e : CronErr) (h : pyInt s = .error e) : e = .valueError := by
  rw [pyInt] at h
  cases hs : ((s.dropWhile Char.isWhitespace).reverse.dropWhile Char.isWhitespace).reverse with
  | nil =>
    rw [hs] at h
    exact (Except.error.inj h).symm
  | cons c rest =>
    rw [hs] at h
    dsimp only at h
    split_ifs at h <;> first
      | exact (Except.error.inj h).symm
      | exact absurd h (by simp)

namespace CrontabParser

theorem range_check_error (P : CrontabParser) (n : Int) (e : CronErr)
    (h : P.range_check n = .error e) : e = .parseError := by
  rw [range_check] at h
  split_ifs at h <;> first
    | exact (Except.error.inj h).symm
    | exact absurd h (by simp)

theorem get_value_error (P : CrontabParser) (part : Chars) (e : CronErr)
    (h : P.get_value part = .error e) : e = .parseError := by
  rw [get_value] at h
  by_cases h1 : isDigits part = true
  · rw [if_pos h1] at h
    exact range_check_error P _ e h
  · rw [if_neg h1] at h
    cases hf : findName P.names (lower3 part) with
    | none =>
      rw [hf] at h
      exact (Except.error.inj h).symm
    | some w =>
      rw [hf] at h
      have h3 : (if w ≠ 0 then Except.ok w else Except.error CronErr.parseError)
          = Except.error e := h
      split_ifs at h3 <;> first
        | exact (Except.error.inj h3).symm
        | exact absurd h3 (by simp)

theorem parse_atom_error (P : CrontabParser) (r : Nat) (part : Chars) (e : CronErr)
    (h : P.parse_atom r part = .error e) : e = .parseError := by
  rw [parse_atom] at h
  by_cases hstar : part = ['*']
  · rw [if_pos hstar] at h
    exact absurd h (by simp)
  · rw [if_neg hstar] at h
    by_cases htil : part = ['~']
    · rw [if_pos htil] at h
      exact absurd h (by simp)
    · rw [if_neg htil] at h
      by_cases hdash : '-' ∈ part
      · rw [if_pos hdash] at h
        cases hlo : P.get_value (splitOnce '-' part).1 with
        | error e2 =>
          simp only [hlo] at h
          exact (Except.error.inj h).symm.trans (get_value_error P _ e2 hlo)
        | ok lo =>
          simp only [hlo] at h
          cases hhi : P.get_value (splitOnce '-' part).2 with
          | error e2 =>
            simp only [hhi] at h
            exact (Except.error.inj h).symm.trans (get_value_error P _ e2 hhi)
          | ok hi =>
            simp only [hhi] at h
            split_ifs at h <;> first
              | exact (Except.error.inj h).symm
              | exact absurd h (by simp)
      · rw [if_neg hdash] at h
        cases hg : P.get_value part with
        | error e2 =>
          simp only [hg] at h
          exact (Except.error.inj h).symm.trans (get_value_error P _ e2 hg)
        | ok v0 =>
          simp only [hg] at h
          exact absurd h (by simp)

theorem parse_part_error (P : CrontabParser) (r : Nat) (part : Chars) (e : CronErr)
    (h : P.parse_part r part = .error e) : e = .parseError ∨ e = .valueError := by
  rw [parse_part] at h
  by_cases hsl : '/' ∈ part
  · rw [if_pos hsl] at h
    cases hst : pyInt (splitOnce '/' part).2 with
    | error e2 =>
      simp only [hst] at h
      exact Or.inr ((Except.error.inj h).symm.trans (pyInt_error _ e2 hst))
    | ok st =>
      simp only [hst] at h
      cases hrc : P.range_check st with
      | error e2 =>
        simp only [hrc] at h
        exact Or.inl ((Except.error.inj h).symm.trans (range_check_error P _ e2 hrc))
      | ok st2 =>
        simp only [hrc] at h
        cases ha : P.parse_atom r (splitOnce '/' part).1 with
        | error e2 =>
          simp only [ha] at h
          exact Or.inl ((Except.error.inj h).symm.trans (parse_atom_error P r _ e2 ha))
        | ok values =>
          simp only [ha] at h
          by_cases hz : st2 = 0
          · rw [if_pos hz] at h
            exact Or.inr (Except.error.inj h).symm
          · rw [if_neg hz] at h
            exact absurd h (by simp)
  · rw [if_neg hsl] at h
    exact Or.inl (parse_atom_error P r part e h)

theorem parseParts_error (P : CrontabParser) (r : Nat → Nat) :
    ∀ (parts : List Chars) (i : Nat) (e : CronErr),
      parseParts P r i parts = .error e → e = .parseError ∨ e = .valueError := by
  intro parts
  induction parts with
  | nil =>
    intro i e h
    rw [parseParts] at h
    exact absurd h (by simp)
  | cons p ps ih =>
    intro i e h
    rw [parseParts] at h
    cases hp : P.parse_part (r i) p with
    | error e2 =>
      simp only [hp] at h
      rcases parse_part_error P (r i) p e2 hp with h2 | h2 <;>
        [exact Or.inl ((Except.error.inj h).symm.trans h2);
         exact Or.inr ((Except.error.inj h).symm.trans h2)]
    | ok vs0 =>
      simp only [hp] at h
      cases hps : parseParts P r (i + 1) ps with
      | error e2 =>
        simp only [hps] at h
        rcases ih (i + 1) e2 hps with h2 | h2 <;>
          [exact Or.inl ((Except.error.inj h).symm.trans h2);
           exact Or.inr ((Except.error.inj h).symm.trans h2)]
      | ok rest =>
        simp only [hps] at h
        exact absurd h (by simp)

theorem parse_error_kind (P : CrontabParser) (r : Nat → Nat) (spec : Chars) (e : CronErr)
    (h : P.parse r spec = .error e) : e = .parseError ∨ e = .valueError := by
  rw [parse] at h
  cases hps : parseParts P r 0 (splitEvery ',' spec) with
  | error e2 =>
    simp only [hps] at h
    rcases parseParts_error P r _ 0 e2 hps with h2 | h2 <;>
      [exact Or.inl ((Except.error.inj h).symm.trans h2);
       exact Or.inr ((Except.error.inj h).symm.trans h2)]
  | ok vs =>
    simp only [hps] at h
    exact absurd h (by simp)

end CrontabParser

/-- `WEEKDAYS` (keys as stored after `key[:3].lower()`). -/
def WEEKDAYS : List (Chars × Int) :=
  [("mon".toList, 1), ("tue".toList, 2), ("wed".toList, 3), ("thu".toList, 4),
   ("fri".toList, 5), ("sat".toList, 6), ("sun".toList, 7)]

/-- `MONTHS` (keys as stored after `key[:3].lower()`). -/
def MONTHS : List (Chars × Int) :=
  [("jan".toList, 1), ("feb".toList, 2), ("mar".toList, 3), ("apr".toList, 4),
   ("may".toList, 5), ("jun".toList, 6), ("jul".toList, 7), ("aug".toList, 8),
   ("sep".toList, 9), ("oct".toList, 10), ("nov".toList, 11), ("dec".toList, 12)]

/-- `minute = CrontabParser(0, 59)`. -/
def minute : CrontabParser := ⟨0, 59, []⟩

/-- `hour = CrontabParser(0, 23)`. -/
def hour : CrontabParser := ⟨0, 23, []⟩

/-- `day = CrontabParser(1, 31)`. -/
def day : CrontabParser := ⟨1, 31, []⟩

/-- `month = CrontabParser(1, 12, names=MONTHS)`. -/
def month : CrontabParser := ⟨1, 12, MONTHS⟩

/-- `weekday = CrontabParser(0, 7, names=WEEKDAYS)`. -/
def weekday : CrontabParser := ⟨0, 7, WEEKDAYS⟩

/-! ## `Crontab` -/

/-- The resolved state of a `Crontab` after `__init__`. -/
structure Crontab where
  minutes : List Int
  hours : List Int
  days : List Int
  months : List Int
  weekdays : List Int
  specifies_day : Bool
  specifies_weekday : Bool
deriving DecidableEq

/-- The body of `Crontab.__init__` applied to `spec.split(None)`: exactly
five fields or `CrontabParseError`, then the five field parsers in order.
`R i` supplies the random draws for the `i`-th field. -/
def Crontab.ofParts (R : Nat → Nat → Nat) : List Chars → Except CronErr Crontab
  | [p0, p1, p2, p3, p4] =>
    match minute.parse (R 0) p0 with
    | .error e => .error e
    | .ok ms =>
      match hour.parse (R 1) p1 with
      | .error e => .error e
      | .ok hs =>
        match day.parse (R 2) p2 with
        | .error e => .error e
        | .ok ds =>
          match month.parse (R 3) p3 with
          | .error e => .error e
          | .ok mos =>
            match weekday.parse (R 4) p4 with
            | .error e => .error e
            | .ok wds =>
              .ok ⟨ms, hs, ds, mos, wds, decide (p2 ≠ ['*']), decide (p4 ≠ ['*'])⟩
  | _ => .error .parseError

/-- `Crontab.__init__(spec)`. -/
def Crontab.ofSpec (R : Nat → Nat → Nat) (spec : String) : Except CronErr Crontab :=
  Crontab.ofParts R (splitWs spec.toList)

/-- `Crontab.match`. -/
def Crontab.matchDT (c : Crontab) (t : DT) : Bool :=
  if ¬((t.minuteOf : Int) ∈ c.minutes) then false
  else if ¬((t.hourOf : Int) ∈ c.hours) then false
  else if ¬((t.monthOf : Int) ∈ c.months) then false
  else if c.specifies_day && c.specifies_weekday then
    if ¬((t.dayOf : Int) ∈ c.days) ∧ ¬((t.isoweekday : Int) ∈ c.weekdays) then false
    else true
  else if ¬((t.dayOf : Int) ∈ c.days) then false
  else if ¬((t.isoweekday : Int) ∈ c.weekdays) then false
  else true

/-- The `while after < until` scan of `Crontab.next`, with explicit fuel so
that the kernel can evaluate it.  The loop advances `after` by one minute
each iteration, so it runs at most `until.mins + 1 - after.mins` times;
with that fuel (see `Crontab.nextW`) exhausting the fuel coincides with the
loop condition failing, and both produce `CrontabExhausted`. -/
def Crontab.scanAux (c : Crontab) (u : DT) : Nat → DT → Except CronErr DT
  | 0, _ => .error .exhausted
  | f + 1, a =>
    if a < u then
      if c.matchDT a.addMinute ∧ a.addMinute < u then .ok a.addMinute.floorMinute
      else c.scanAux u f a.addMinute
    else .error .exhausted

/-- `Crontab.next(after, until)` with both arguments given. -/
def Crontab.nextW (c : Crontab) (a u : DT) : Except CronErr DT :=
  c.scanAux u (u.mins + 1 - a.mins) a

/-- `Crontab.next(after)` with `until` omitted:
`until = after.replace(year=after.year + 1)`. -/
def Crontab.nextD (c : Crontab) (a : DT) : Except CronErr DT :=
  match a.replaceYearPlusOne with
  | none => .error .valueError
  | some u => c.nextW a u

/-! ## Basic lemmas about the datetime order and the scan -/

theorem DT.lt_def (a b : DT) : a < b ↔ (a.mins < b.mins ∨ (a.mins = b.mins ∧ a.sub < b.sub)) :=
  Iff.rfl

@[simp] theorem DT.mins_mk (m s : Nat) : (DT.mk m s).mins = m := rfl

@[simp] theorem DT.sub_mk (m s : Nat) : (DT.mk m s).sub = s := rfl

@[simp] theorem DT.mins_addMinute (t : DT) : t.addMinute.mins = t.mins + 1 := rfl

@[simp] theorem DT.sub_addMinute (t : DT) : t.addMinute.sub = t.sub := rfl

@[simp] theorem DT.mins_floorMinute (t : DT) : t.floorMinute.mins = t.mins := rfl

@[simp] theorem DT.sub_floorMinute (t : DT) : t.floorMinute.sub = 0 := rfl

@[simp] theorem DT.addMinute_mk (m s : Nat) : (DT.mk m s).addMinute = DT.mk (m + 1) s := rfl

@[simp] theorem DT.floorMinute_mk (m s : Nat) : (DT.mk m s).floorMinute = DT.mk m 0 := rfl

/-- The scan loop only ever fails with `CrontabExhausted`. -/
theorem Crontab.scanAux_error (c : Crontab) (u : DT) :
    ∀ f a e, c.scanAux u f a = .error e → e = .exhausted := by
  intro f
  induction f with
  | zero => intro a e h; simpa [Crontab.scanAux] using h.symm
  | succ f ih =>
    intro a e h
    rw [Crontab.scanAux] at h
    split at h
    · split at h
      · exact absurd h (by simp)
      · exact ih _ _ h
    · simpa using h.symm

/-- A successful scan strictly advances the minute count, returns a whole
minute, and stays below `until`. -/
theorem Crontab.scanAux_ok_mins (c : Crontab) (u : DT) :
    ∀ f a t, c.scanAux u f a = .ok t → a.mins < t.mins ∧ t.sub = 0 ∧ t < u := by
  intro f
  induction f with
  | zero => intro a t h; simp [Crontab.scanAux] at h
  | succ f ih =>
    intro a t h
    rw [Crontab.scanAux] at h
    split at h
    · split at h
      · rename_i hc
        cases h
        refine ⟨Nat.lt_succ_self _, rfl, ?_⟩
        have h2 := hc.2
        rw [DT.lt_def] at h2 ⊢
        simp only [DT.mins_addMinute, DT.sub_addMinute, DT.mins_floorMinute,
          DT.sub_floorMinute] at h2 ⊢
        rcases h2 with h' | h'
        · exact Or.inl h'
        · exact Or.inr ⟨h'.1, by omega⟩
      · have := ih _ _ h
        refine ⟨?_, this.2⟩
        have h1 := this.1
        simp only [DT.mins_addMinute] at h1
        omega
    · simp at h

/-- Full characterization of the scan when `after` is a whole-minute
instant and the fuel is at least the width of the window (as it is in
`Crontab.nextW`): a success returns the least matching whole minute
strictly inside the window, and exhaustion means there is none. -/
theorem Crontab.scanAux_spec (c : Crontab) (u : DT) :
    ∀ f (a : DT), a.sub = 0 → u.mins + 1 - a.mins ≤ f →
      (∀ t, c.scanAux u f a = .ok t →
        t.sub = 0 ∧ a < t ∧ t < u ∧ c.matchDT t = true ∧
          ∀ m, a.mins < m → m < t.mins → c.matchDT ⟨m, 0⟩ = false) ∧
      (c.scanAux u f a = .error .exhausted →
        ∀ m, a.mins < m → (⟨m, 0⟩ : DT) < u → c.matchDT ⟨m, 0⟩ = false) := by
  intro f
  induction f with
  | zero =>
    intro a ha hf
    refine ⟨fun t h => by simp [Crontab.scanAux] at h, fun _ m hm hmu => ?_⟩
    exfalso
    rw [DT.lt_def] at hmu
    simp only [DT.mins_mk, DT.sub_mk] at hmu
    omega
  | succ f ih =>
    intro a ha hf
    obtain ⟨am, asub⟩ := a
    simp only [DT.sub_mk] at ha
    subst ha
    simp only [DT.mins_mk] at hf
    constructor
    · intro t h
      rw [Crontab.scanAux] at h
      simp only [DT.addMinute_mk, DT.floorMinute_mk] at h
      split at h
      · rename_i hau
        split at h
        · rename_i hc
          cases h
          refine ⟨rfl, ?_, hc.2, hc.1, ?_⟩
          · rw [DT.lt_def]
            simp only [DT.mins_mk]
            omega
          · intro m h1 h2
            exfalso
            simp only [DT.mins_mk] at h1 h2
            omega
        · rename_i hc
          have hau2 : am ≤ u.mins := by
            rw [DT.lt_def] at hau
            simp only [DT.mins_mk, DT.sub_mk] at hau
            omega
          have h3 : u.mins + 1 - (DT.mk (am + 1) 0).mins ≤ f := by
            simp only [DT.mins_mk]
            omega
          obtain ⟨hsub, hlt, hltu, hmatch, hgap⟩ := (ih (DT.mk (am + 1) 0) rfl h3).1 t h
          have hmt : am + 1 ≤ t.mins := by
            rw [DT.lt_def] at hlt
            simp only [DT.mins_mk] at hlt
            omega
          refine ⟨hsub, ?_, hltu, hmatch, ?_⟩
          · rw [DT.lt_def]
            rcases Nat.lt_or_ge am t.mins with h' | h'
            · exact Or.inl h'
            · exfalso
              rw [DT.lt_def] at hlt
              simp only [DT.mins_mk] at hlt
              omega
          · intro m h1 h2
            simp only [DT.mins_mk] at h1
            rcases Nat.lt_or_ge (am + 1) m with h' | h'
            · exact hgap m (by simp only [DT.mins_mk]; omega) h2
            · have hm1 : m = am + 1 := by omega
              subst hm1
              by_cases hma : c.matchDT (DT.mk (am + 1) 0) = true
              · exfalso
                have hnotlt : ¬ (DT.mk (am + 1) 0) < u := fun hl => hc ⟨hma, hl⟩
                have hbd := (Crontab.scanAux_ok_mins c u f _ t h).2.2
                rw [DT.lt_def] at hnotlt hbd
                simp only [DT.mins_mk, DT.sub_mk] at hnotlt hbd
                omega
              · simpa using hma
      · simp at h
    · intro h m h1 h2
      rw [Crontab.scanAux] at h
      simp only [DT.addMinute_mk, DT.floorMinute_mk] at h
      simp only [DT.mins_mk] at h1
      split at h
      · rename_i hau
        split at h
        · simp at h
        · rename_i hc
          have hau2 : am ≤ u.mins := by
            rw [DT.lt_def] at hau
            simp only [DT.mins_mk, DT.sub_mk] at hau
            omega
          have h3 : u.mins + 1 - (DT.mk (am + 1) 0).mins ≤ f := by
            simp only [DT.mins_mk]
            omega
          rcases Nat.lt_or_ge (am + 1) m with h' | h'
          · exact (ih (DT.mk (am + 1) 0) rfl h3).2 h m (by simp only [DT.mins_mk]; omega) h2
          · have hm1 : m = am + 1 := by omega
            subst hm1
            by_cases hma : c.matchDT (DT.mk (am + 1) 0) = true
            · exfalso
              exact (fun hl => hc ⟨hma, hl⟩) h2
            · simpa using hma
      · rename_i hau
        exfalso
        rw [DT.lt_def] at hau h2
        simp only [DT.mins_mk, DT.sub_mk] at hau h2
        omega


/-- Establish a concrete successful `next`: `t` matches, lies strictly
inside the window, and no earlier whole minute after `a` matches. -/
theorem Crontab.nextW_ok_intro (c : Crontab) (a u t : DT) (ha : a.sub = 0) (ht : t.sub = 0)
    (h1 : a < t) (h2 : t < u) (h3 : c.matchDT t = true)
    (hgap : ∀ m, a.mins < m → m < t.mins → c.matchDT ⟨m, 0⟩ = false) :
    c.nextW a u = .ok t := by
  have hspec := Crontab.scanAux_spec c u (u.mins + 1 - a.mins) a ha le_rfl
  have h1m : a.mins < t.mins := by
    rw [DT.lt_def] at h1
    omega
  cases hv : c.nextW a u with
  | ok t2 =>
    obtain ⟨hs2, hlt2, hltu2, hm2, hgap2⟩ := hspec.1 t2 hv
    have h2m : a.mins < t2.mins := by
      rw [DT.lt_def] at hlt2
      omega
    have : t2.mins = t.mins := by
      rcases Nat.lt_trichotomy t2.mins t.mins with h' | h' | h'
      · exfalso
        have := hgap t2.mins h2m h'
        have ht2 : t2 = (⟨t2.mins, 0⟩ : DT) := by
          obtain ⟨x, y⟩ := t2
          simp only [DT.sub_mk] at hs2
          simp [hs2]
        rw [ht2] at hm2
        rw [hm2] at this
        exact absurd this (by simp)
      · exact h'
      · exfalso
        have := hgap2 t.mins h1m h'
        have ht1 : t = (⟨t.mins, 0⟩ : DT) := by
          obtain ⟨x, y⟩ := t
          simp only [DT.sub_mk] at ht
          simp [ht]
        rw [ht1] at h3
        rw [h3] at this
        exact absurd this (by simp)
    have : t2 = t := by
      obtain ⟨x2, y2⟩ := t2
      obtain ⟨x1, y1⟩ := t
      simp only [DT.sub_mk, DT.mins_mk] at hs2 ht this
      simp [this, hs2, ht]
    exact congrArg Except.ok this
  | error e =>
    exfalso
    have hv2 : c.scanAux u (u.mins + 1 - a.mins) a = .error e := hv
    have he : e = .exhausted := Crontab.scanAux_error c u _ a e hv2
    subst he
    have := hspec.2 hv t.mins h1m (by
      have ht1 : (⟨t.mins, 0⟩ : DT) = t := by
        obtain ⟨x, y⟩ := t
        simp only [DT.sub_mk] at ht
        simp [ht]
      rw [ht1]
      exact h2)
    have ht1 : (⟨t.mins, 0⟩ : DT) = t := by
      obtain ⟨x, y⟩ := t
      simp only [DT.sub_mk] at ht
      simp [ht]
    rw [ht1, h3] at this
    exact absurd this (by simp)

/-- Establish a concrete exhausted `next`: no whole minute strictly inside
the window matches. -/
theorem Crontab.nextW_exhausted_intro (c : Crontab) (a u : DT) (ha : a.sub = 0)
    (hgap : ∀ m, a.mins < m → (⟨m, 0⟩ : DT) < u → c.matchDT ⟨m, 0⟩ = false) :
    c.nextW a u = .error .exhausted := by
  have hspec := Crontab.scanAux_spec c u (u.mins + 1 - a.mins) a ha le_rfl
  cases hv : c.nextW a u with
  | ok t =>
    exfalso
    obtain ⟨hs, hlt, hltu, hm, _⟩ := hspec.1 t hv
    have h2m : a.mins < t.mins := by
      rw [DT.lt_def] at hlt
      omega
    have ht1 : (⟨t.mins, 0⟩ : DT) = t := by
      obtain ⟨x, y⟩ := t
      simp only [DT.sub_mk] at hs
      simp [hs]
    have := hgap t.mins h2m (by rw [ht1]; exact hltu)
    rw [ht1, hm] at this
    exact absurd this (by simp)
  | error e =>
    have hv2 : c.scanAux u (u.mins + 1 - a.mins) a = .error e := hv
    rw [Crontab.scanAux_error c u _ a e hv2]

/-- A successful `next` (however called) is strictly later than `after`,
strictly before `until`, and on a whole minute. -/
theorem Crontab.nextW_ok_bounds (c : Crontab) (a u t : DT) (h : c.nextW a u = .ok t) :
    a < t ∧ t < u ∧ t.sub = 0 := by
  have := Crontab.scanAux_ok_mins c u _ a t h
  exact ⟨Or.inl this.1, this.2.2, this.2.1⟩


instance instDecEqExcept {ε α : Type} [DecidableEq ε] [DecidableEq α] :
    DecidableEq (Except ε α) := fun x y =>
  match x, y with
  | .ok v, .ok w =>
    if h : v = w then .isTrue (by rw [h]) else .isFalse (fun hc => h (Except.ok.inj hc))
  | .error v, .error w =>
    if h : v = w then .isTrue (by rw [h]) else .isFalse (fun hc => h (Except.error.inj hc))
  | .ok _, .error _ => .isFalse (fun hc => Except.noConfusion hc)
  | .error _, .ok _ => .isFalse (fun hc => Except.noConfusion hc)

/-- A degenerate random source for specs without `~`. -/
def zeroRand : Nat → Nat → Nat := fun _ _ => 0

/-- The resolved form of `Crontab("* * * * *")`. -/
def cStar : Crontab :=
  ⟨CrontabParser.intRange 0 59, CrontabParser.intRange 0 23, CrontabParser.intRange 1 31,
   CrontabParser.intRange 1 12, CrontabParser.intRange 0 7, false, false⟩

/-- 2025-01-01 10:30:45. -/
def aC1 : DT := ⟨(mkDT 2025 1 1 10 30).mins, 45000000⟩

/-- 2025-01-01 10:31:30. -/
def uC1 : DT := ⟨(mkDT 2025 1 1 10 31).mins, 30000000⟩

/-- 2025-01-01 10:31:00. -/
def tC1 : DT := mkDT 2025 1 1 10 31

/-- C1, counterexample: for `Crontab("* * * * *")` with
`after = 2025-01-01 10:30:45` and `until = 2025-01-01 10:31:30`, the
whole-minute instant 10:31:00 is strictly after `after`, before `until`
and matches, yet `next` raises `CrontabExhausted`: the scan instants carry
`after`'s 45-second component, and the window test `after < until` is
applied to the carried instant 10:31:45, not to its zeroed form. -/
theorem C1_counterexample :
    Crontab.ofSpec zeroRand "* * * * *" = .ok cStar ∧
    cStar.nextW aC1 uC1 = .error .exhausted ∧
    aC1 < tC1 ∧ tC1 < uC1 ∧ tC1.sub = 0 ∧ cStar.matchDT tC1 = true :=
  ⟨by rfl, by rfl, by decide, by decide, by rfl, by rfl⟩

/-- C1 (amended): for a whole-minute `after`, `next(after, until)` returns
the earliest whole-minute instant strictly after `after` and before
`until` matching the crontab, with sub-minute components zeroed, and
raises `CrontabExhausted` iff no such instant exists; the only errors are
exhaustion; and when `until` is omitted it defaults to
`after.replace(year=after.year + 1)` (`after`'s calendar fields with the
year incremented), whenever that date exists.  (For an `after` carrying
seconds/microseconds the window test is applied to the scan instant that
inherits them, and a match can be missed — see the counterexample.) -/
theorem C1_next_amended (c : Crontab) (a u : DT) (ha : a.sub = 0) :
    (∀ t, c.nextW a u = .ok t →
        t.sub = 0 ∧ a < t ∧ t < u ∧ c.matchDT t = true ∧
          ∀ m, a.mins < m → m < t.mins → c.matchDT ⟨m, 0⟩ = false) ∧
    (c.nextW a u = .error .exhausted →
        ∀ m, a.mins < m → (⟨m, 0⟩ : DT) < u → c.matchDT ⟨m, 0⟩ = false) ∧
    ((c.nextW a u).isOk = true ∨ c.nextW a u = .error .exhausted) ∧
    (∀ u2, a.replaceYearPlusOne = some u2 → c.nextD a = c.nextW a u2) := by
  have hspec := Crontab.scanAux_spec c u (u.mins + 1 - a.mins) a ha le_rfl
  refine ⟨hspec.1, hspec.2, ?_, ?_⟩
  · cases hv : c.nextW a u with
    | ok t => exact Or.inl rfl
    | error e =>
      have hv2 : c.scanAux u (u.mins + 1 - a.mins) a = .error e := hv
      rw [Crontab.scanAux_error c u _ a e hv2]
      exact Or.inr rfl
  · intro u2 h
    have hd : c.nextD a = (match a.replaceYearPlusOne with
      | none => .error .valueError
      | some u => c.nextW a u) := rfl
    rw [hd, h]

/-- 2025-06-01 12:00:00 / 12:03:00 / 12:01:00. -/
def aW1 : DT := mkDT 2025 6 1 12 0

def uW1 : DT := mkDT 2025 6 1 12 3

def tW1 : DT := mkDT 2025 6 1 12 1

/-- Witness for C1 at `Crontab("* * * * *")`, `after = 2025-06-01 12:00`. -/
theorem C1_next_amended_witness :
    tW1.sub = 0 ∧ aW1 < tW1 ∧ tW1 < uW1 ∧ cStar.matchDT tW1 = true := by
  have h := (C1_next_amended cStar aW1 uW1 (by rfl)).1 tW1 (by rfl)
  exact ⟨h.1, h.2.1, h.2.2.1, h.2.2.2.1⟩


/-- Construction errors are `CrontabParseError` or `ValueError`, never the
exhaustion error. -/
theorem Crontab.ofSpec_error (R : Nat → Nat → Nat) (s : String) (e : CronErr)
    (h : Crontab.ofSpec R s = .error e) : e = .parseError ∨ e = .valueError := by
  rw [Crontab.ofSpec] at h
  rcases hps : splitWs s.toList with _ | ⟨p0, _ | ⟨p1, _ | ⟨p2, _ | ⟨p3, _ | ⟨p4, _ | ⟨p5, rest⟩⟩⟩⟩⟩⟩ <;>
    rw [hps] at h <;> simp only [Crontab.ofParts] at h
  pick_goal 6
  · cases hm0 : minute.parse (R 0) p0 with
    | error e2 =>
      simp only [hm0] at h
      exact (Except.error.inj h).symm ▸ CrontabParser.parse_error_kind minute _ p0 e2 hm0
    | ok ms =>
      simp only [hm0] at h
      cases hm1 : hour.parse (R 1) p1 with
      | error e2 =>
        simp only [hm1] at h
        exact (Except.error.inj h).symm ▸ CrontabParser.parse_error_kind hour _ p1 e2 hm1
      | ok hs =>
        simp only [hm1] at h
        cases hm2 : day.parse (R 2) p2 with
        | error e2 =>
          simp only [hm2] at h
          exact (Except.error.inj h).symm ▸ CrontabParser.parse_error_kind day _ p2 e2 hm2
        | ok ds =>
          simp only [hm2] at h
          cases hm3 : month.parse (R 3) p3 with
          | error e2 =>
            simp only [hm3] at h
            exact (Except.error.inj h).symm ▸ CrontabParser.parse_error_kind month _ p3 e2 hm3
          | ok mos =>
            simp only [hm3] at h
            cases hm4 : weekday.parse (R 4) p4 with
            | error e2 =>
              simp only [hm4] at h
              exact (Except.error.inj h).symm ▸ CrontabParser.parse_error_kind weekday _ p4 e2 hm4
            | ok wds =>
              simp only [hm4] at h
              exact absurd h (by simp)
  all_goals exact Or.inl (Except.error.inj h).symm

/-- Fewer or more than five whitespace-separated fields is a parse error. -/
theorem Crontab.ofSpec_wrong_count (R : Nat → Nat → Nat) (s : String)
    (h : (splitWs s.toList).length ≠ 5) : Crontab.ofSpec R s = .error .parseError := by
  rw [Crontab.ofSpec]
  rcases hps : splitWs s.toList with _ | ⟨p0, _ | ⟨p1, _ | ⟨p2, _ | ⟨p3, _ | ⟨p4, _ | ⟨p5, rest⟩⟩⟩⟩⟩⟩ <;>
    first
      | rfl
      | (exfalso; rw [hps] at h; simp at h)

/-- A `/step` whose integer step lies outside the field's range is a parse
error. -/
theorem CrontabParser.parse_part_step_out_of_range (P : CrontabParser) (r : Nat)
    (part : Chars) (st : Int) (hsl : '/' ∈ part)
    (hst : pyInt (splitOnce '/' part).2 = .ok st)
    (hout : st < P.min_value ∨ st > P.max_value) :
    P.parse_part r part = .error .parseError := by
  simp only [CrontabParser.parse_part, if_pos hsl, hst, CrontabParser.range_check,
    if_pos hout]

/-- A range `lo-hi` with `lo > hi` is a parse error. -/
theorem CrontabParser.parse_part_inverted_range (P : CrontabParser) (r : Nat)
    (part : Chars) (lo hi : Int)
    (hsl : '/' ∉ part) (hstar : part ≠ ['*']) (htil : part ≠ ['~']) (hdash : '-' ∈ part)
    (hlo : P.get_value (splitOnce '-' part).1 = .ok lo)
    (hhi : P.get_value (splitOnce '-' part).2 = .ok hi) (hgt : lo > hi) :
    P.parse_part r part = .error .parseError := by
  simp only [CrontabParser.parse_part, if_neg hsl, CrontabParser.parse_atom,
    if_neg hstar, if_neg htil, if_pos hdash, hlo, hhi, if_pos hgt]

/-- An atom that is no wildcard, no random pick, no range, not a number and
not a known name is a parse error. -/
theorem CrontabParser.parse_part_unknown (P : CrontabParser) (r : Nat) (part : Chars)
    (hsl : '/' ∉ part) (hstar : part ≠ ['*']) (htil : part ≠ ['~']) (hdash : '-' ∉ part)
    (hdig : isDigits part = false) (hname : findName P.names (lower3 part) = none) :
    P.parse_part r part = .error .parseError := by
  simp only [CrontabParser.parse_part, if_neg hsl, CrontabParser.parse_atom,
    if_neg hstar, if_neg htil, if_neg hdash, CrontabParser.get_value, hdig,
    Bool.false_eq_true, if_false, hname]

/-- `next` never raises a parse error (its errors are exhaustion, or the
calendar `ValueError` of the default `until`). -/
theorem Crontab.next_no_parse_error (c : Crontab) (a u : DT) :
    c.nextW a u ≠ .error .parseError ∧ c.nextD a ≠ .error .parseError := by
  constructor
  · intro hc
    have hv2 : c.scanAux u (u.mins + 1 - a.mins) a = .error .parseError := hc
    have := Crontab.scanAux_error c u _ a _ hv2
    exact absurd this (by simp)
  · intro hc
    have hd : c.nextD a = (match a.replaceYearPlusOne with
      | none => .error .valueError
      | some u2 => c.nextW a u2) := rfl
    rw [hd] at hc
    cases hr : a.replaceYearPlusOne with
    | none =>
      rw [hr] at hc
      simp at hc
    | some u2 =>
      rw [hr] at hc
      have hv2 : c.scanAux u2 (u2.mins + 1 - a.mins) a = .error .parseError := hc
      have := Crontab.scanAux_error c u2 _ a _ hv2
      exact absurd this (by simp)

/-- Unfolding of `Crontab.match` into the specification's case analysis. -/
theorem Crontab.matchDT_iff (c : Crontab) (t : DT) :
    c.matchDT t = true ↔
      ((t.minuteOf : Int) ∈ c.minutes ∧ (t.hourOf : Int) ∈ c.hours ∧
        (t.monthOf : Int) ∈ c.months ∧
        (if c.specifies_day = true ∧ c.specifies_weekday = true
         then (t.dayOf : Int) ∈ c.days ∨ (t.isoweekday : Int) ∈ c.weekdays
         else (t.dayOf : Int) ∈ c.days ∧ (t.isoweekday : Int) ∈ c.weekdays)) := by
  rw [Crontab.matchDT]
  by_cases h1 : (t.minuteOf : Int) ∈ c.minutes <;>
    by_cases h2 : (t.hourOf : Int) ∈ c.hours <;>
      by_cases h3 : (t.monthOf : Int) ∈ c.months <;>
        by_cases h4 : (t.dayOf : Int) ∈ c.days <;>
          by_cases h5 : (t.isoweekday : Int) ∈ c.weekdays <;>
            by_cases h6 : c.specifies_day = true <;>
              by_cases h7 : c.specifies_weekday = true <;>
                simp_all

/-- If `Crontab(s)` constructs, its field lists and constraint flags come
from the five whitespace-separated parts of `s`; in particular the flags
record whether the day and weekday fields were given as `*`. -/
theorem Crontab.ofSpec_fields (R : Nat → Nat → Nat) (s : String) (c : Crontab)
    (h : Crontab.ofSpec R s = .ok c) :
    ∃ p0 p1 p2 p3 p4, splitWs s.toList = [p0, p1, p2, p3, p4] ∧
      minute.parse (R 0) p0 = .ok c.minutes ∧
      hour.parse (R 1) p1 = .ok c.hours ∧
      day.parse (R 2) p2 = .ok c.days ∧
      month.parse (R 3) p3 = .ok c.months ∧
      weekday.parse (R 4) p4 = .ok c.weekdays ∧
      c.specifies_day = decide (p2 ≠ ['*']) ∧
      c.specifies_weekday = decide (p4 ≠ ['*']) := by
  rw [Crontab.ofSpec] at h
  rcases hps : splitWs s.toList with _ | ⟨p0, _ | ⟨p1, _ | ⟨p2, _ | ⟨p3, _ | ⟨p4, _ | ⟨p5, rest⟩⟩⟩⟩⟩⟩ <;>
    rw [hps] at h <;> simp only [Crontab.ofParts] at h
  pick_goal 6
  · refine ⟨p0, p1, p2, p3, p4, rfl, ?_⟩
    cases hm0 : minute.parse (R 0) p0 with
    | error e => rw [hm0] at h; exact absurd h (by simp)
    | ok ms =>
      rw [hm0] at h
      cases hm1 : hour.parse (R 1) p1 with
      | error e => rw [hm1] at h; exact absurd h (by simp)
      | ok hs =>
        rw [hm1] at h
        cases hm2 : day.parse (R 2) p2 with
        | error e => rw [hm2] at h; exact absurd h (by simp)
        | ok ds =>
          rw [hm2] at h
          cases hm3 : month.parse (R 3) p3 with
          | error e => rw [hm3] at h; exact absurd h (by simp)
          | ok mos =>
            rw [hm3] at h
            cases hm4 : weekday.parse (R 4) p4 with
            | error e => rw [hm4] at h; exact absurd h (by simp)
            | ok wds =>
              rw [hm4] at h
              simp only [Except.ok.injEq] at h
              subst h
              exact ⟨rfl, rfl, rfl, rfl, rfl, rfl, rfl⟩
  all_goals exact absurd h (by simp)

/-- C2: for any successfully constructed `Crontab`, `match(dt)` holds iff
minute, hour and month lie in their resolved sets and, when both the
day-of-month and the weekday field were constrained (not `*`), day-of-month
matches or weekday matches, otherwise both must match; the constraint
flags are exactly "field differs from `*`". -/
theorem C2_match_semantics (R : Nat → Nat → Nat) (s : String) (c : Crontab)
    (h : Crontab.ofSpec R s = .ok c) :
    (∀ t : DT, c.matchDT t = true ↔
      ((t.minuteOf : Int) ∈ c.minutes ∧ (t.hourOf : Int) ∈ c.hours ∧
        (t.monthOf : Int) ∈ c.months ∧
        (if c.specifies_day = true ∧ c.specifies_weekday = true
         then (t.dayOf : Int) ∈ c.days ∨ (t.isoweekday : Int) ∈ c.weekdays
         else (t.dayOf : Int) ∈ c.days ∧ (t.isoweekday : Int) ∈ c.weekdays))) ∧
    (∃ p0 p1 p2 p3 p4, splitWs s.toList = [p0, p1, p2, p3, p4] ∧
      c.specifies_day = decide (p2 ≠ ['*']) ∧
      c.specifies_weekday = decide (p4 ≠ ['*'])) := by
  refine ⟨fun t => Crontab.matchDT_iff c t, ?_⟩
  obtain ⟨p0, p1, p2, p3, p4, hsp, _, _, _, _, _, hd, hw⟩ := Crontab.ofSpec_fields R s c h
  exact ⟨p0, p1, p2, p3, p4, hsp, hd, hw⟩

/-- The resolved form of `Crontab("30 4 1,15 * *")`. -/
def c30 : Crontab :=
  ⟨[30], [4], [1, 15], CrontabParser.intRange 1 12, CrontabParser.intRange 0 7, true, false⟩

/-- Witness for C2 at `Crontab("30 4 1,15 * *")` and 2025-01-15 04:30. -/
theorem C2_match_semantics_witness :
    c30.matchDT (mkDT 2025 1 15 4 30) = true := by
  have h := (C2_match_semantics zeroRand "30 4 1,15 * *" c30 (by rfl)).1 (mkDT 2025 1 15 4 30)
  rw [h]
  rw [if_neg (by simp [c30])]
  exact ⟨by decide, by decide, by decide, by decide, by decide⟩


/-- The resolved form of `Crontab("* * * * 0")`: the weekday set is `[0]`. -/
def cWd0 : Crontab :=
  ⟨CrontabParser.intRange 0 59, CrontabParser.intRange 0 23, CrontabParser.intRange 1 31,
   CrontabParser.intRange 1 12, [0], false, true⟩

/-- The resolved form of `Crontab("* * * * 7")`: the weekday set is `[7]`. -/
def cWd7 : Crontab :=
  ⟨CrontabParser.intRange 0 59, CrontabParser.intRange 0 23, CrontabParser.intRange 1 31,
   CrontabParser.intRange 1 12, [7], false, true⟩

/-- 2025-01-05 00:00, a Sunday. -/
def sunday0105 : DT := mkDT 2025 1 5 0 0

/-- C3: in the code, `0` in the weekday field is *not* an alias for Sunday.
`Crontab("* * * * 0")` resolves its weekday set to `[0]`, but `match`
compares it against `isoweekday()` which ranges over 1..7, so the spec
matches no instant at all (in particular no Sunday), while
`Crontab("* * * * 7")` does match Sundays.  This contradicts the
documented "both 0 and 7 mean Sunday" semantics and the repository's own
test expectation `weekday.parse("0-2,5") == [1, 2, 5, 7]`. -/
theorem C3_weekday_zero_bug :
    Crontab.ofSpec zeroRand "* * * * 0" = .ok cWd0 ∧
    Crontab.ofSpec zeroRand "* * * * 7" = .ok cWd7 ∧
    sunday0105.isoweekday = 7 ∧
    cWd7.matchDT sunday0105 = true ∧
    cWd0.matchDT sunday0105 = false ∧
    (∀ t : DT, cWd0.matchDT t = false) := by
  refine ⟨by rfl, by rfl, by rfl, by rfl, by rfl, ?_⟩
  intro t
  have hwd : ¬((t.isoweekday : Int) ∈ cWd0.weekdays) := by
    simp only [cWd0, DT.isoweekday, List.mem_singleton]
    intro hc
    omega
  have hsd : cWd0.specifies_day = false := rfl
  rw [Crontab.matchDT]
  split_ifs <;> simp_all

namespace CrontabParser

/-- Re-parsing the decimal rendering of an in-range value yields exactly
that value (the parser takes the plain-number branch). -/
theorem parse_part_intToChars (P : CrontabParser) (r : Nat) (v : Int)
    (h0 : 0 ≤ P.min_value) (hlo : P.min_value ≤ v) (hhi : v ≤ P.max_value) :
    P.parse_part r (intToChars v) = .ok [v] := by
  show P.parse_part r (natToChars v.toNat) = .ok [v]
  obtain ⟨hval, hdig, hne⟩ := natToChars_spec v.toNat
  have hnn : (0 : Int) ≤ v := le_trans h0 hlo
  have hsl : ¬('/' ∈ natToChars v.toNat) := fun hc => absurd (hdig '/' hc) (by decide)
  have hds : ¬('-' ∈ natToChars v.toNat) := fun hc => absurd (hdig '-' hc) (by decide)
  have hstar : natToChars v.toNat ≠ ['*'] := fun he =>
    absurd (hdig '*' (by rw [he]; exact List.mem_singleton_self '*')) (by decide)
  have htil : natToChars v.toNat ≠ ['~'] := fun he =>
    absurd (hdig '~' (by rw [he]; exact List.mem_singleton_self '~')) (by decide)
  have hcast : ((v.toNat : Int)) = v := Int.toNat_of_nonneg hnn
  rw [parse_part, if_neg hsl, parse_atom, if_neg hstar, if_neg htil, if_neg hds, get_value,
    if_pos (natToChars_isDigits v.toNat), hval, range_check, hcast,
    if_neg (by omega : ¬(v < P.min_value ∨ v > P.max_value))]

/-- Re-parsing a rendered list of in-range values yields exactly the list. -/
theorem parseParts_intToChars (P : CrontabParser) (r : Nat → Nat)
    (h0 : 0 ≤ P.min_value) :
    ∀ (l : List Int) (i : Nat),
      (∀ v ∈ l, P.min_value ≤ v ∧ v ≤ P.max_value) →
      parseParts P r i (l.map intToChars) = .ok l := by
  intro l
  induction l with
  | nil => intro i _; rfl
  | cons v l ih =>
    intro i hb
    rw [List.map_cons, parseParts,
      parse_part_intToChars P (r i) v h0 (hb v (List.mem_cons_self v l)).1
        (hb v (List.mem_cons_self v l)).2,
      ih (i + 1) (fun w hw => hb w (List.mem_cons_of_mem v hw))]
    rfl

end CrontabParser

/-- C4: for every field parser (numeric range with `0 ≤ min ≤ max`, names
range-checked at construction) and every spec that parses successfully,
the resolved list is non-empty, strictly ascending and duplicate-free;
re-parsing the comma-joined decimal rendering of the resolved list yields
the same list (idempotence on the resolved set); and the `/step` suffix
selects every step-th element of the already-resolved list, so
`minute.parse("30-45/3") = [30, 33, 36, 39, 42, 45]`. -/
theorem C4_parse_properties (P : CrontabParser) (r r2 : Nat → Nat) (spec : Chars)
    (out : List Int)
    (h0 : 0 ≤ P.min_value) (hrange : P.min_value ≤ P.max_value)
    (hnames : ∀ p ∈ P.names, P.min_value ≤ p.2 ∧ p.2 ≤ P.max_value)
    (h : P.parse r spec = .ok out) :
    out ≠ [] ∧ List.Sorted (· < ·) out ∧ out.Nodup ∧
      P.parse r2 (commaJoin out) = .ok out ∧
      minute.parse r2 "30-45/3".toList = .ok [30, 33, 36, 39, 42, 45] := by
  obtain ⟨hne, hsort, hnodup, hbds⟩ := CrontabParser.parse_ok P r spec out hrange hnames h
  refine ⟨hne, hsort, hnodup, ?_, by rfl⟩
  have hmapne : out.map intToChars ≠ [] := by
    cases out with
    | nil => exact absurd rfl hne
    | cons a l => simp
  have hnc : ∀ p ∈ out.map intToChars, ',' ∉ p := by
    intro p hp
    obtain ⟨v, _, hv⟩ := List.mem_map.mp hp
    subst hv
    intro hc
    exact absurd ((natToChars_spec v.toNat).2.1 ',' hc) (by decide)
  have hsp : splitEvery ',' (commaJoin out) = out.map intToChars :=
    splitEvery_intercalate (out.map intToChars) hmapne hnc
  rw [CrontabParser.parse, hsp,
    CrontabParser.parseParts_intToChars P r2 h0 out 0 hbds]
  show Except.ok (CrontabParser.dedupSort out) = Except.ok out
  rw [CrontabParser.dedupSort_of_sorted out hsort]

/-- Witness for C4 at `minute.parse("7-12,42")`. -/
theorem C4_parse_properties_witness :
    ([7, 8, 9, 10, 11, 12, 42] : List Int) ≠ [] ∧
    List.Sorted (· < ·) ([7, 8, 9, 10, 11, 12, 42] : List Int) ∧
    ([7, 8, 9, 10, 11, 12, 42] : List Int).Nodup ∧
    minute.parse (fun _ => 1) (commaJoin [7, 8, 9, 10, 11, 12, 42]) =
      .ok [7, 8, 9, 10, 11, 12, 42] ∧
    minute.parse (fun _ => 1) "30-45/3".toList = .ok [30, 33, 36, 39, 42, 45] :=
  C4_parse_properties minute (fun _ => 0) (fun _ => 1) "7-12,42".toList
    [7, 8, 9, 10, 11, 12, 42] (by decide) (by decide) (by simp [minute]) (by rfl)

/-- C5, counterexample: two malformed specs whose construction raises
Python's `ValueError`, not `CrontabParseError`.  `"*/0"`: the step `0`
passes `_range_check` (the minute field's minimum is 0) and then
`values[::0]` raises `ValueError`; `"*/x"`: `int("x")` raises
`ValueError` before any parse check. -/
theorem C5_counterexample :
    Crontab.ofSpec zeroRand "*/0 * * * *" = .error .valueError ∧
    Crontab.ofSpec zeroRand "*/x * * * *" = .error .valueError := by
  exact ⟨by rfl, by rfl⟩

/-- C5 (amended): construction fails only with `CrontabParseError` or
`ValueError` (never exhaustion); a wrong field count, an integer step
outside the field's range, an inverted range `lo-hi` with `lo > hi`, and
an unknown atom each raise `CrontabParseError`; but a non-integer step
suffix, or a step of `0` in a field whose minimum is `0`, escape as
`ValueError` (see the counterexample).  On a constructed Crontab, `match`
is total and `next` never raises a parse error. -/
theorem C5_construction_errors :
    (∀ (R : Nat → Nat → Nat) (s : String) (e : CronErr),
      Crontab.ofSpec R s = .error e → e = .parseError ∨ e = .valueError) ∧
    (∀ (R : Nat → Nat → Nat) (s : String), (splitWs s.toList).length ≠ 5 →
      Crontab.ofSpec R s = .error .parseError) ∧
    (∀ (P : CrontabParser) (r : Nat) (part : Chars) (st : Int), '/' ∈ part →
      pyInt (splitOnce '/' part).2 = .ok st → (st < P.min_value ∨ st > P.max_value) →
      P.parse_part r part = .error .parseError) ∧
    (∀ (P : CrontabParser) (r : Nat) (part : Chars) (lo hi : Int), '/' ∉ part →
      part ≠ ['*'] → part ≠ ['~'] → '-' ∈ part →
      P.get_value (splitOnce '-' part).1 = .ok lo →
      P.get_value (splitOnce '-' part).2 = .ok hi → lo > hi →
      P.parse_part r part = .error .parseError) ∧
    (∀ (P : CrontabParser) (r : Nat) (part : Chars), '/' ∉ part →
      part ≠ ['*'] → part ≠ ['~'] → '-' ∉ part → isDigits part = false →
      CrontabParser.findName P.names (lower3 part) = none →
      P.parse_part r part = .error .parseError) ∧
    (∀ (c : Crontab) (a u : DT),
      c.nextW a u ≠ .error .parseError ∧ c.nextD a ≠ .error .parseError) :=
  ⟨Crontab.ofSpec_error, Crontab.ofSpec_wrong_count,
   CrontabParser.parse_part_step_out_of_range,
   CrontabParser.parse_part_inverted_range,
   CrontabParser.parse_part_unknown,
   Crontab.next_no_parse_error⟩

/-- Witness for C5: the listed malformed inputs produce the parse error,
concretely. -/
theorem C5_construction_errors_witness :
    Crontab.ofSpec zeroRand "1 2 3" = .error .parseError ∧
    minute.parse_part 0 "*/99".toList = .error .parseError ∧
    minute.parse_part 0 "12-9".toList = .error .parseError ∧
    minute.parse_part 0 "xx".toList = .error .parseError ∧
    cStar.nextW aW1 uW1 ≠ .error .parseError := by
  obtain ⟨h1, h2, h3, h4, h5, h6⟩ := C5_construction_errors
  exact ⟨h2 zeroRand "1 2 3" (by decide),
    h3 minute 0 "*/99".toList 99 (by decide) (by rfl) (by decide),
    h4 minute 0 "12-9".toList 12 9 (by decide) (by decide) (by decide) (by decide)
      (by rfl) (by rfl) (by decide),
    h5 minute 0 "xx".toList (by decide) (by decide) (by decide) (by decide)
      (by rfl) (by rfl),
    (h6 cStar aW1 uW1).1⟩

/-! ## The leap-day default window (C10) -/

theorem monthDayOfYearDay_feb29 (leap : Bool) (yd : Nat)
    (h2 : (monthDayOfYearDay leap yd).1 = 2) (h29 : (monthDayOfYearDay leap yd).2 = 29) :
    leap = true := by
  cases leap with
  | true => rfl
  | false =>
    exfalso
    rw [monthDayOfYearDay] at h2 h29
    norm_num [daysBeforeMonth] at h2 h29
    by_cases c1 : yd < 31
    · rw [if_pos c1] at h2; simp at h2
    · rw [if_neg c1] at h2 h29
      by_cases c2 : yd < 59
      · rw [if_pos c2] at h29; simp at h29; omega
      · rw [if_neg c2] at h2 h29
        by_cases c3 : yd < 90
        · rw [if_pos c3] at h2; simp at h2
        · rw [if_neg c3] at h2 h29
          by_cases c4 : yd < 120
          · rw [if_pos c4] at h2; simp at h2
          · rw [if_neg c4] at h2 h29
            by_cases c5 : yd < 151
            · rw [if_pos c5] at h2; simp at h2
            · rw [if_neg c5] at h2 h29
              by_cases c6 : yd < 181
              · rw [if_pos c6] at h2; simp at h2
              · rw [if_neg c6] at h2 h29
                by_cases c7 : yd < 212
                · rw [if_pos c7] at h2; simp at h2
                · rw [if_neg c7] at h2 h29
                  by_cases c8 : yd < 243
                  · rw [if_pos c8] at h2; simp at h2
                  · rw [if_neg c8] at h2 h29
                    by_cases c9 : yd < 273
                    · rw [if_pos c9] at h2; simp at h2
                    · rw [if_neg c9] at h2 h29
                      by_cases c10 : yd < 304
                      · rw [if_pos c10] at h2; simp at h2
                      · rw [if_neg c10] at h2 h29
                        by_cases c11 : yd < 334
                        · rw [if_pos c11] at h2; simp at h2
                        · rw [if_neg c11] at h2 h29
                          simp at h2

theorem civil_feb29_leap (n : Nat) (h2 : (civilFromDays n).2.1 = 2)
    (h29 : (civilFromDays n).2.2 = 29) : isLeap (civilFromDays n).1 = true := by
  simp only [civilFromDays] at h2 h29 ⊢
  exact monthDayOfYearDay_feb29 _ _ h2 h29

theorem isLeap_succ_of_isLeap (y : Nat) (h : isLeap y = true) : isLeap (y + 1) = false := by
  have h4 : y % 4 = 0 := by
    rw [isLeap, Bool.and_eq_true, beq_iff_eq] at h
    exact h.1
  have h1 : (y + 1) % 4 = 1 := by omega
  rw [isLeap, h1]
  simp

/-- C10: for every Crontab and every datetime on February 29,
`next(after)` with `until` unspecified computes
`after.replace(year=after.year + 1)`, an invalid date (the next year is
never a leap year), and so raises `ValueError` instead of returning a
match or the exhaustion error. -/
theorem C10_feb29_default_until (c : Crontab) (t : DT)
    (h2 : t.monthOf = 2) (h29 : t.dayOf = 29) :
    c.nextD t = .error .valueError := by
  rw [DT.monthOf] at h2
  rw [DT.dayOf] at h29
  have hleap : isLeap (civilFromDays t.dayNum).1 = true := civil_feb29_leap t.dayNum h2 h29
  have hfeb : daysInMonth ((civilFromDays t.dayNum).1 + 1) 2 = 28 := by
    rw [daysInMonth, if_pos rfl, isLeap_succ_of_isLeap _ hleap]
    simp
  have hnone : t.replaceYearPlusOne = none := by
    rw [DT.replaceYearPlusOne]
    simp only [h2, h29, hfeb]
    norm_num
  have hd : c.nextD t = (match t.replaceYearPlusOne with
    | none => .error .valueError
    | some u2 => c.nextW t u2) := rfl
  rw [hd, hnone]

/-- Witness for C10 at `Crontab("* * * * *")` and 2024-02-29 12:00. -/
theorem C10_feb29_default_until_witness :
    cStar.nextD (mkDT 2024 2 29 12 0) = .error .valueError :=
  C10_feb29_default_until cStar (mkDT 2024 2 29 12 0) (by rfl) (by rfl)

/-! ## `Crontab.dates` (C6) -/

/-- The generator loop of `Crontab.dates` with explicit fuel: repeatedly
call `next` with the previous result as the new `after`, stopping cleanly
on `CrontabExhausted`.  Each yielded instant is at least one minute later
than the previous one, so `until.mins + 1 - after.mins` iterations (the
fuel `Crontab.datesF` supplies) always suffice; `datesAux_stable` below
proves the result is fuel-independent from that bound on. -/
def Crontab.datesAux (c : Crontab) (u : DT) : Nat → DT → List DT
  | 0, _ => []
  | f + 1, d =>
    match c.nextW d u with
    | .error _ => []
    | .ok d2 => d2 :: c.datesAux u f d2

/-- `list(Crontab.dates(after, until))` (with both arguments given). -/
def Crontab.datesF (c : Crontab) (a u : DT) : List DT :=
  c.datesAux u (u.mins + 1 - a.mins) a

theorem Crontab.nextW_fuel0 (c : Crontab) (a u : DT) (h : u.mins + 1 - a.mins = 0) :
    c.nextW a u = .error .exhausted := by
  show c.scanAux u (u.mins + 1 - a.mins) a = .error .exhausted
  rw [h]
  rfl

theorem Crontab.datesAux_stable (c : Crontab) (u : DT) :
    ∀ f f2 (a : DT), u.mins + 1 - a.mins ≤ f → u.mins + 1 - a.mins ≤ f2 →
      c.datesAux u f a = c.datesAux u f2 a := by
  intro f
  induction f with
  | zero =>
    intro f2 a hf hf2
    have h0 : c.nextW a u = .error .exhausted := c.nextW_fuel0 a u (by omega)
    cases f2 with
    | zero => rfl
    | succ f2 =>
      rw [Crontab.datesAux, Crontab.datesAux, h0]
  | succ f ih =>
    intro f2 a hf hf2
    cases f2 with
    | zero =>
      have h0 : c.nextW a u = .error .exhausted := c.nextW_fuel0 a u (by omega)
      rw [Crontab.datesAux, Crontab.datesAux, h0]
    | succ f2 =>
      rw [Crontab.datesAux, Crontab.datesAux]
      cases hn : c.nextW a u with
      | error e => rfl
      | ok d2 =>
        obtain ⟨hlt, hltu, _⟩ := Crontab.nextW_ok_bounds c a u d2 hn
        have h1 : a.mins < d2.mins := by rw [DT.lt_def] at hlt; omega
        have h2 : d2.mins ≤ u.mins := by rw [DT.lt_def] at hltu; omega
        dsimp only
        rw [ih f2 d2 (by omega) (by omega)]

theorem Crontab.datesF_err (c : Crontab) (a u : DT) (e : CronErr)
    (h : c.nextW a u = .error e) : c.datesF a u = [] := by
  rw [Crontab.datesF]
  cases hb : u.mins + 1 - a.mins with
  | zero => rfl
  | succ b => rw [Crontab.datesAux, h]

theorem Crontab.datesF_ok (c : Crontab) (a u d2 : DT)
    (h : c.nextW a u = .ok d2) : c.datesF a u = d2 :: c.datesF d2 u := by
  obtain ⟨hlt, hltu, _⟩ := Crontab.nextW_ok_bounds c a u d2 h
  have h1 : a.mins < d2.mins := by rw [DT.lt_def] at hlt; omega
  have h2 : d2.mins ≤ u.mins := by rw [DT.lt_def] at hltu; omega
  rw [Crontab.datesF]
  cases hb : u.mins + 1 - a.mins with
  | zero =>
    exfalso
    rw [c.nextW_fuel0 a u hb] at h
    exact Except.noConfusion h
  | succ b =>
    rw [Crontab.datesAux, h]
    dsimp only
    rw [Crontab.datesF,
      Crontab.datesAux_stable c u b (u.mins + 1 - d2.mins) d2 (by omega) le_rfl]

theorem monthDay_month_range (leap : Bool) (yd : Nat) :
    1 ≤ (monthDayOfYearDay leap yd).1 ∧ (monthDayOfYearDay leap yd).1 ≤ 12 := by
  rw [monthDayOfYearDay]
  by_cases c1 : yd < daysBeforeMonth leap 2
  · rw [if_pos c1]; exact ⟨by norm_num, by norm_num⟩
  · rw [if_neg c1]
    by_cases c2 : yd < daysBeforeMonth leap 3
    · rw [if_pos c2]; exact ⟨by norm_num, by norm_num⟩
    · rw [if_neg c2]
      by_cases c3 : yd < daysBeforeMonth leap 4
      · rw [if_pos c3]; exact ⟨by norm_num, by norm_num⟩
      · rw [if_neg c3]
        by_cases c4 : yd < daysBeforeMonth leap 5
        · rw [if_pos c4]; exact ⟨by norm_num, by norm_num⟩
        · rw [if_neg c4]
          by_cases c5 : yd < daysBeforeMonth leap 6
          · rw [if_pos c5]; exact ⟨by norm_num, by norm_num⟩
          · rw [if_neg c5]
            by_cases c6 : yd < daysBeforeMonth leap 7
            · rw [if_pos c6]; exact ⟨by norm_num, by norm_num⟩
            · rw [if_neg c6]
              by_cases c7 : yd < daysBeforeMonth leap 8
              · rw [if_pos c7]; exact ⟨by norm_num, by norm_num⟩
              · rw [if_neg c7]
                by_cases c8 : yd < daysBeforeMonth leap 9
                · rw [if_pos c8]; exact ⟨by norm_num, by norm_num⟩
                · rw [if_neg c8]
                  by_cases c9 : yd < daysBeforeMonth leap 10
                  · rw [if_pos c9]; exact ⟨by norm_num, by norm_num⟩
                  · rw [if_neg c9]
                    by_cases c10 : yd < daysBeforeMonth leap 11
                    · rw [if_pos c10]; exact ⟨by norm_num, by norm_num⟩
                    · rw [if_neg c10]
                      by_cases c11 : yd < daysBeforeMonth leap 12
                      · rw [if_pos c11]; exact ⟨by norm_num, by norm_num⟩
                      · rw [if_neg c11]
                        exact ⟨by norm_num, by norm_num⟩

theorem civil_month_range (n : Nat) :
    1 ≤ (civilFromDays n).2.1 ∧ (civilFromDays n).2.1 ≤ 12 := by
  simp only [civilFromDays]
  exact monthDay_month_range _ _

/-- `Crontab("30 4 1,15 * *")` matches a whole minute iff the time of day
is 04:30 and the day of month is 1 or 15. -/
theorem matchC30 (m : Nat) :
    c30.matchDT ⟨m, 0⟩ = true ↔
      (m % 1440 = 270 ∧
        ((civilFromDays (m / 1440)).2.2 = 1 ∨ (civilFromDays (m / 1440)).2.2 = 15)) := by
  rw [Crontab.matchDT_iff]
  rw [if_neg (by simp [c30] : ¬(c30.specifies_day = true ∧ c30.specifies_weekday = true))]
  have e1 : (⟨m, 0⟩ : DT).minuteOf = m % 60 := rfl
  have e2 : (⟨m, 0⟩ : DT).hourOf = m / 60 % 24 := rfl
  have e4 : (⟨m, 0⟩ : DT).dayOf = (civilFromDays (m / 1440)).2.2 := rfl
  have e5 : (⟨m, 0⟩ : DT).isoweekday = m / 1440 % 7 + 1 := rfl
  have e3 : (⟨m, 0⟩ : DT).monthOf = (civilFromDays (m / 1440)).2.1 := rfl
  constructor
  · rintro ⟨h1, h2, _, h4, _⟩
    rw [e1] at h1
    rw [e2] at h2
    rw [e4] at h4
    simp only [c30, List.mem_singleton] at h1 h2
    simp only [c30, List.mem_cons, List.mem_singleton, List.not_mem_nil, or_false] at h4
    refine ⟨by omega, by omega⟩
  · rintro ⟨h1, h2⟩
    refine ⟨?_, ?_, ?_, ?_, ?_⟩
    · rw [e1]
      simp only [c30, List.mem_singleton]
      omega
    · rw [e2]
      simp only [c30, List.mem_singleton]
      omega
    · rw [e3]
      have := civil_month_range (m / 1440)
      show ((civilFromDays (m / 1440)).2.1 : Int) ∈ CrontabParser.intRange 1 12
      rw [CrontabParser.mem_intRange]
      omega
    · rw [e4]
      simp only [c30, List.mem_cons, List.mem_singleton, List.not_mem_nil, or_false]
      omega
    · rw [e5]
      show ((m / 1440 % 7 + 1 : Nat) : Int) ∈ CrontabParser.intRange 0 7
      rw [CrontabParser.mem_intRange]
      have : m / 1440 % 7 < 7 := Nat.mod_lt _ (by norm_num)
      omega

/-- One step of the `"30 4 1,15 * *"` schedule: from a whole minute `aM`,
the next match is 04:30 of day `D2` provided day `D2` is the 1st or 15th,
it lies inside the window, and no day strictly between carries day-of-month
1 or 15. -/
theorem nextC30_step (aM D2 : Nat) (u : DT)
    (ha : aM < 1440 * D2 + 270) (hu : (⟨1440 * D2 + 270, 0⟩ : DT) < u)
    (hd : (civilFromDays D2).2.2 = 1 ∨ (civilFromDays D2).2.2 = 15)
    (hgap : ∀ d, aM < 1440 * d + 270 → d < D2 →
      ¬((civilFromDays d).2.2 = 1 ∨ (civilFromDays d).2.2 = 15)) :
    c30.nextW ⟨aM, 0⟩ u = .ok ⟨1440 * D2 + 270, 0⟩ := by
  apply Crontab.nextW_ok_intro c30 _ _ _ rfl rfl
  · rw [DT.lt_def]
    simp only [DT.mins_mk]
    omega
  · exact hu
  · rw [matchC30]
    have hm1 : (1440 * D2 + 270) % 1440 = 270 := by omega
    have hm2 : (1440 * D2 + 270) / 1440 = D2 := by omega
    rw [hm1, hm2]
    exact ⟨rfl, hd⟩
  · intro m h1 h2
    simp only [DT.mins_mk] at h1 h2
    cases hb : c30.matchDT ⟨m, 0⟩ with
    | false => rfl
    | true =>
      exfalso
      obtain ⟨hmod, hday⟩ := (matchC30 m).mp hb
      have hm : m = 1440 * (m / 1440) + 270 := by omega
      exact hgap (m / 1440) (by omega) (by omega) hday

/-- Exhaustion of the `"30 4 1,15 * *"` schedule: if no day at 04:30
inside the window is the 1st or 15th, `next` exhausts. -/
theorem nextC30_exhaust (aM : Nat) (u : DT)
    (hgap : ∀ d, aM < 1440 * d + 270 → ((⟨1440 * d + 270, 0⟩ : DT) < u) →
      ¬((civilFromDays d).2.2 = 1 ∨ (civilFromDays d).2.2 = 15)) :
    c30.nextW ⟨aM, 0⟩ u = .error .exhausted := by
  apply Crontab.nextW_exhausted_intro c30 _ _ rfl
  intro m h1 h2
  simp only [DT.mins_mk] at h1
  cases hb : c30.matchDT ⟨m, 0⟩ with
  | false => rfl
  | true =>
    exfalso
    obtain ⟨hmod, hday⟩ := (matchC30 m).mp hb
    have hm : m = 1440 * (m / 1440) + 270 := by omega
    refine hgap (m / 1440) (by omega) ?_ hday
    rw [← hm]
    exact h2

/-- Reduce a day-range emptiness obligation to a finite check. -/
theorem gap_of_all (lo hi : Nat)
    (hall : ∀ k, k < hi - lo →
      ¬((civilFromDays (lo + k)).2.2 = 1 ∨ (civilFromDays (lo + k)).2.2 = 15)) :
    ∀ d, lo ≤ d → d < hi →
      ¬((civilFromDays d).2.2 = 1 ∨ (civilFromDays d).2.2 = 15) := by
  intro d hd1 hd2
  have := hall (d - lo) (by omega)
  rwa [Nat.add_sub_cancel' hd1] at this

/-- 04:30 on day number `D`. -/
def d430 (D : Nat) : DT := ⟨1440 * D + 270, 0⟩

/-- 2025-01-01 00:00. -/
def a30 : DT := ⟨1440 * 739251, 0⟩

/-- 2026-01-01 00:00. -/
def u30 : DT := ⟨1440 * 739616, 0⟩

/-- The 24 instants matched by `"30 4 1,15 * *"` during 2025. -/
def dates24 : List DT := [d430 739251, d430 739265, d430 739282, d430 739296, d430 739310, d430 739324, d430 739341, d430 739355, d430 739371, d430 739385, d430 739402, d430 739416, d430 739432, d430 739446, d430 739463, d430 739477, d430 739494, d430 739508, d430 739524, d430 739538, d430 739555, d430 739569, d430 739585, d430 739599]

theorem c30_step1 : c30.nextW a30 u30 = .ok (d430 739251) := by
  apply nextC30_step
  · decide
  · decide
  · decide
  · intro d h1 h2
    exact gap_of_all 739251 739251 (by decide) d (by omega) h2

theorem c30_step2 : c30.nextW (d430 739251) u30 = .ok (d430 739265) := by
  apply nextC30_step
  · decide
  · decide
  · decide
  · intro d h1 h2
    exact gap_of_all 739252 739265 (by decide) d (by omega) h2

theorem c30_step3 : c30.nextW (d430 739265) u30 = .ok (d430 739282) := by
  apply nextC30_step
  · decide
  · decide
  · decide
  · intro d h1 h2
    exact gap_of_all 739266 739282 (by decide) d (by omega) h2

theorem c30_step4 : c30.nextW (d430 739282) u30 = .ok (d430 739296) := by
  apply nextC30_step
  · decide
  · decide
  · decide
  · intro d h1 h2
    exact gap_of_all 739283 739296 (by decide) d (by omega) h2

theorem c30_step5 : c30.nextW (d430 739296) u30 = .ok (d430 739310) := by
  apply nextC30_step
  · decide
  · decide
  · decide
  · intro d h1 h2
    exact gap_of_all 739297 739310 (by decide) d (by omega) h2

theorem c30_step6 : c30.nextW (d430 739310) u30 = .ok (d430 739324) := by
  apply nextC30_step
  · decide
  · decide
  · decide
  · intro d h1 h2
    exact gap_of_all 739311 739324 (by decide) d (by omega) h2

theorem c30_step7 : c30.nextW (d430 739324) u30 = .ok (d430 739341) := by
  apply nextC30_step
  · decide
  · decide
  · decide
  · intro d h1 h2
    exact gap_of_all 739325 739341 (by decide) d (by omega) h2

theorem c30_step8 : c30.nextW (d430 739341) u30 = .ok (d430 739355) := by
  apply nextC30_step
  · decide
  · decide
  · decide
  · intro d h1 h2
    exact gap_of_all 739342 739355 (by decide) d (by omega) h2

theorem c30_step9 : c30.nextW (d430 739355) u30 = .ok (d430 739371) := by
  apply nextC30_step
  · decide
  · decide
  · decide
  · intro d h1 h2
    exact gap_of_all 739356 739371 (by decide) d (by omega) h2

theorem c30_step10 : c30.nextW (d430 739371) u30 = .ok (d430 739385) := by
  apply nextC30_step
  · decide
  · decide
  · decide
  · intro d h1 h2
    exact gap_of_all 739372 739385 (by decide) d (by omega) h2

theorem c30_step11 : c30.nextW (d430 739385) u30 = .ok (d430 739402) := by
  apply nextC30_step
  · decide
  · decide
  · decide
  · intro d h1 h2
    exact gap_of_all 739386 739402 (by decide) d (by omega) h2

theorem c30_step12 : c30.nextW (d430 739402) u30 = .ok (d430 739416) := by
  apply nextC30_step
  · decide
  · decide
  · decide
  · intro d h1 h2
    exact gap_of_all 739403 739416 (by decide) d (by omega) h2

theorem c30_step13 : c30.nextW (d430 739416) u30 = .ok (d430 739432) := by
  apply nextC30_step
  · decide
  · decide
  · decide
  · intro d h1 h2
    exact gap_of_all 739417 739432 (by decide) d (by omega) h2

theorem c30_step14 : c30.nextW (d430 739432) u30 = .ok (d430 739446) := by
  apply nextC30_step
  · decide
  · decide
  · decide
  · intro d h1 h2
    exact gap_of_all 739433 739446 (by decide) d (by omega) h2

theorem c30_step15 : c30.nextW (d430 739446) u30 = .ok (d430 739463) := by
  apply nextC30_step
  · decide
  · decide
  · decide
  · intro d h1 h2
    exact gap_of_all 739447 739463 (by decide) d (by omega) h2

theorem c30_step16 : c30.nextW (d430 739463) u30 = .ok (d430 739477) := by
  apply nextC30_step
  · decide
  · decide
  · decide
  · intro d h1 h2
    exact gap_of_all 739464 739477 (by decide) d (by omega) h2

theorem c30_step17 : c30.nextW (d430 739477) u30 = .ok (d430 739494) := by
  apply nextC30_step
  · decide
  · decide
  · decide
  · intro d h1 h2
    exact gap_of_all 739478 739494 (by decide) d (by omega) h2

theorem c30_step18 : c30.nextW (d430 739494) u30 = .ok (d430 739508) := by
  apply nextC30_step
  · decide
  · decide
  · decide
  · intro d h1 h2
    exact gap_of_all 739495 739508 (by decide) d (by omega) h2

theorem c30_step19 : c30.nextW (d430 739508) u30 = .ok (d430 739524) := by
  apply nextC30_step
  · decide
  · decide
  · decide
  · intro d h1 h2
    exact gap_of_all 739509 739524 (by decide) d (by omega) h2

theorem c30_step20 : c30.nextW (d430 739524) u30 = .ok (d430 739538) := by
  apply nextC30_step
  · decide
  · decide
  · decide
  · intro d h1 h2
    exact gap_of_all 739525 739538 (by decide) d (by omega) h2

theorem c30_step21 : c30.nextW (d430 739538) u30 = .ok (d430 739555) := by
  apply nextC30_step
  · decide
  · decide
  · decide
  · intro d h1 h2
    exact gap_of_all 739539 739555 (by decide) d (by omega) h2

theorem c30_step22 : c30.nextW (d430 739555) u30 = .ok (d430 739569) := by
  apply nextC30_step
  · decide
  · decide
  · decide
  · intro d h1 h2
    exact gap_of_all 739556 739569 (by decide) d (by omega) h2

theorem c30_step23 : c30.nextW (d430 739569) u30 = .ok (d430 739585) := by
  apply nextC30_step
  · decide
  · decide
  · decide
  · intro d h1 h2
    exact gap_of_all 739570 739585 (by decide) d (by omega) h2

theorem c30_step24 : c30.nextW (d430 739585) u30 = .ok (d430 739599) := by
  apply nextC30_step
  · decide
  · decide
  · decide
  · intro d h1 h2
    exact gap_of_all 739586 739599 (by decide) d (by omega) h2

theorem c30_exhaust : c30.nextW (d430 739599) u30 = .error .exhausted := by
  apply nextC30_exhaust
  intro d h1 h2
  rw [DT.lt_def] at h2
  simp only [DT.mins_mk, u30] at h2
  have hd2 : d < 739616 := by omega
  exact gap_of_all 739600 739616 (by decide) d (by omega) hd2

theorem c30_dates : c30.datesF a30 u30 = dates24 := by
  rw [Crontab.datesF_ok c30 a30 u30 (d430 739251) c30_step1,
    Crontab.datesF_ok c30 (d430 739251) u30 (d430 739265) c30_step2,
    Crontab.datesF_ok c30 (d430 739265) u30 (d430 739282) c30_step3,
    Crontab.datesF_ok c30 (d430 739282) u30 (d430 739296) c30_step4,
    Crontab.datesF_ok c30 (d430 739296) u30 (d430 739310) c30_step5,
    Crontab.datesF_ok c30 (d430 739310) u30 (d430 739324) c30_step6,
    Crontab.datesF_ok c30 (d430 739324) u30 (d430 739341) c30_step7,
    Crontab.datesF_ok c30 (d430 739341) u30 (d430 739355) c30_step8,
    Crontab.datesF_ok c30 (d430 739355) u30 (d430 739371) c30_step9,
    Crontab.datesF_ok c30 (d430 739371) u30 (d430 739385) c30_step10,
    Crontab.datesF_ok c30 (d430 739385) u30 (d430 739402) c30_step11,
    Crontab.datesF_ok c30 (d430 739402) u30 (d430 739416) c30_step12,
    Crontab.datesF_ok c30 (d430 739416) u30 (d430 739432) c30_step13,
    Crontab.datesF_ok c30 (d430 739432) u30 (d430 739446) c30_step14,
    Crontab.datesF_ok c30 (d430 739446) u30 (d430 739463) c30_step15,
    Crontab.datesF_ok c30 (d430 739463) u30 (d430 739477) c30_step16,
    Crontab.datesF_ok c30 (d430 739477) u30 (d430 739494) c30_step17,
    Crontab.datesF_ok c30 (d430 739494) u30 (d430 739508) c30_step18,
    Crontab.datesF_ok c30 (d430 739508) u30 (d430 739524) c30_step19,
    Crontab.datesF_ok c30 (d430 739524) u30 (d430 739538) c30_step20,
    Crontab.datesF_ok c30 (d430 739538) u30 (d430 739555) c30_step21,
    Crontab.datesF_ok c30 (d430 739555) u30 (d430 739569) c30_step22,
    Crontab.datesF_ok c30 (d430 739569) u30 (d430 739585) c30_step23,
    Crontab.datesF_ok c30 (d430 739585) u30 (d430 739599) c30_step24,
    Crontab.datesF_err c30 (d430 739599) u30 .exhausted c30_exhaust]
  rfl

/-- C6: `dates(after, until)` yields exactly the sequence obtained by
iterating `next` with each previous result as the new `after`, and ends
cleanly (an empty tail, not a propagated error) when `next` exhausts; and
`Crontab("30 4 1,15 * *").dates(2025-01-01, 2026-01-01)` yields exactly 24
instants, all at 04:30 (time-of-day minute 270 with no sub-minute part)
and all on day 1 or 15 of the month. -/
theorem C6_dates_sequence :
    (∀ (c : Crontab) (a u : DT) (e : CronErr),
        c.nextW a u = .error e → c.datesF a u = []) ∧
    (∀ (c : Crontab) (a u d2 : DT),
        c.nextW a u = .ok d2 → c.datesF a u = d2 :: c.datesF d2 u) ∧
    Crontab.ofSpec zeroRand "30 4 1,15 * *" = .ok c30 ∧
    c30.datesF a30 u30 = dates24 ∧
    dates24.length = 24 ∧
    (∀ d ∈ dates24, d.mins % 1440 = 270 ∧ d.sub = 0 ∧ (d.dayOf = 1 ∨ d.dayOf = 15)) :=
  ⟨Crontab.datesF_err, Crontab.datesF_ok, by rfl, c30_dates, by rfl, by decide⟩

/-- Witness for C6's iteration clauses at `Crontab("* * * * *")`. -/
theorem C6_dates_sequence_witness :
    cStar.datesF aW1 uW1 = tW1 :: cStar.datesF tW1 uW1 :=
  C6_dates_sequence.2.1 cStar aW1 uW1 tW1 (by rfl)

/-! ## The runner (`runner.py`): task records, claiming, dispatch -/

/-- `dt1 <= dt2` (Django `run_after__lte=now`). -/
def DT.le (a b : DT) : Prop := a.mins < b.mins ∨ (a.mins = b.mins ∧ a.sub ≤ b.sub)

instance : LE DT := ⟨DT.le⟩

instance (a b : DT) : Decidable (a ≤ b) :=
  inferInstanceAs (Decidable (a.mins < b.mins ∨ (a.mins = b.mins ∧ a.sub ≤ b.sub)))

theorem DT.le_def (a b : DT) : a ≤ b ↔ (a.mins < b.mins ∨ (a.mins = b.mins ∧ a.sub ≤ b.sub)) :=
  Iff.rfl

/-- `TaskResultStatus`. -/
inductive TStatus
  | ready
  | running
  | successful
  | failed
deriving DecidableEq

/-- A `ScheduledTask` row, with the fields the runner reads or writes
(`args`/`kwargs`/results are irrelevant to the claims and omitted). -/
structure TaskRec where
  task_id : Nat
  task_path : String
  status : TStatus
  periodic : Bool
  priority : Int
  enqueued_at : DT
  run_after : Option DT
  started_at : Option DT
  backend : String
  queue : String
  worker_ids : List String
deriving DecidableEq

/-- The `get_tasks` eligibility filter:
`(run_after is null or run_after <= now) and status = READY and
backend = balias and queue in queues`. -/
def eligB (balias : String) (queues : List String) (now : DT) (r : TaskRec) : Bool :=
  (match r.run_after with
   | none => true
   | some d => decide (d ≤ now)) &&
  decide (r.status = .ready) && decide (r.backend = balias) && decide (r.queue ∈ queues)

/-- `order_by("-priority", "enqueued_at")` as a total boolean order
(descending priority, then ascending enqueue time; ties in any order, as
in SQL). -/
def claimLE (r1 r2 : TaskRec) : Bool :=
  decide (r2.priority < r1.priority ∨
    (r1.priority = r2.priority ∧ r1.enqueued_at ≤ r2.enqueued_at))

/-- Insertion into a sorted list (used to model the ordered query). -/
def insertBy (le : TaskRec → TaskRec → Bool) (x : TaskRec) : List TaskRec → List TaskRec
  | [] => [x]
  | y :: ys => if le x y then x :: y :: ys else y :: insertBy le x ys

/-- Insertion sort modelling the ordered query result. -/
def sortBy (le : TaskRec → TaskRec → Bool) : List TaskRec → List TaskRec
  | [] => []
  | x :: xs => insertBy le x (sortBy le xs)

/-- The per-row claim update: `status = RUNNING`, `started_at = now`,
`worker_ids.append(worker_id)`. -/
def claimUpd (now : DT) (wid : String) (r : TaskRec) : TaskRec :=
  {r with status := .running, started_at := some now, worker_ids := r.worker_ids ++ [wid]}

/-- `Runner.get_tasks(number)`: inside one atomic transaction, select up to
`number` eligible rows in priority/enqueue order, mark each RUNNING with
the start time and this worker's id, and return the (updated) rows
together with the updated table.  The table update is modelled as a map
over rows keyed by `task_id` (callers establish distinct ids). -/
def get_tasks (balias : String) (queues : List String) (wid : String) (now : DT)
    (n : Nat) (db : List TaskRec) : List TaskRec × List TaskRec :=
  if n = 0 then ([], db)
  else
    let claimed0 := (sortBy claimLE (db.filter (eligB balias queues now))).take n
    let cids : List Nat := claimed0.map (fun r => r.task_id)
    (claimed0.map (claimUpd now wid),
     db.map (fun r => if r.task_id ∈ cids then claimUpd now wid r else r))

/-- The runner's in-process state plus the shared table, as read and
written by `schedule_tasks`.  `tasks` is the key set of the in-flight
future map; `callbacks` records the `(pk, task_path, periodic)` completion
handlers registered with `add_done_callback`; the executor itself, locks
and log output have no observable effect on the claims. -/
structure Runner where
  workers : Nat
  loop_delay : ℚ
  balias : String
  queues : List String
  worker_id : String
  tasks : List Nat
  seen_modules : List String
  processed : Nat
  empty : Bool
  callbacks : List (Nat × String × Bool)
  db : List TaskRec
deriving DecidableEq

/-- `task_path.rsplit(".", 1)[0]`: drop the part after the last dot. -/
def modulePartChars (s : Chars) : Chars :=
  if '.' ∈ s then (((s.reverse).dropWhile (fun c => ¬(c = '.'))).drop 1).reverse else s

def modulePart (s : String) : String := ⟨modulePartChars s.data⟩

/-- `self.seen_modules.add(m)` (a set; insertion position is irrelevant). -/
def addSeen (mods : List String) (m : String) : List String :=
  if m ∈ mods then mods else mods ++ [m]

/-- `Runner.schedule_tasks()`: returns the new state and the delay before
the next call. -/
def schedule_tasks (st : Runner) (now : DT) : Runner × ℚ :=
  let available := st.workers - st.tasks.length
  if available = 0 then (st, st.loop_delay)
  else
    let res := get_tasks st.balias st.queues st.worker_id now available st.db
    if res.1 = [] then
      if st.tasks = [] then ({st with db := res.2, empty := true}, st.loop_delay)
      else ({st with db := res.2}, st.loop_delay)
    else
      ({st with
          db := res.2,
          empty := false,
          tasks := st.tasks ++ res.1.map (fun t => t.task_id),
          seen_modules :=
            res.1.foldl (fun acc t => addSeen acc (modulePart t.task_path)) st.seen_modules,
          callbacks := st.callbacks ++ res.1.map (fun t => (t.task_id, t.task_path, t.periodic))},
       if st.workers - st.tasks.length ≤ res.1.length then 0 else st.loop_delay)

theorem get_tasks_len (balias : String) (queues : List String) (wid : String) (now : DT)
    (n : Nat) (db : List TaskRec) :
    (get_tasks balias queues wid now n db).1.length ≤ n := by
  rw [get_tasks]
  by_cases h : n = 0
  · rw [if_pos h]
    simp [h]
  · rw [if_neg h]
    simp only [List.length_map, List.length_take]
    omega

theorem get_tasks_nil (balias : String) (queues : List String) (wid : String) (now : DT)
    (n : Nat) (db claimed db2 : List TaskRec)
    (h : get_tasks balias queues wid now n db = (claimed, db2)) (hc : claimed = []) :
    db2 = db := by
  subst hc
  rw [get_tasks] at h
  by_cases hn : n = 0
  · rw [if_pos hn] at h
    exact (congrArg Prod.snd h).symm
  · rw [if_neg hn] at h
    have h1 := congrArg Prod.fst h
    have h2 := congrArg Prod.snd h
    dsimp only at h1 h2
    rw [List.map_eq_nil] at h1
    rw [← h2, h1]
    simp

/-- C8: the dispatch-loop step.  With `available = workers - |in-flight|`:
if none are available nothing changes and the poll delay is returned;
otherwise up to `available` tasks are claimed; an empty claim with nothing
in flight sets the queue-empty signal (and only then); a non-empty claim
clears the signal, records each task in the in-flight map, its module in
the seen set and a completion callback, and returns zero delay iff the
batch filled the whole quota, the poll delay otherwise. -/
theorem C8_schedule_tasks (st : Runner) (now : DT) :
    (st.workers ≤ st.tasks.length → schedule_tasks st now = (st, st.loop_delay)) ∧
    (∀ claimed db2,
      st.tasks.length < st.workers →
      get_tasks st.balias st.queues st.worker_id now (st.workers - st.tasks.length) st.db
        = (claimed, db2) →
      claimed.length ≤ st.workers - st.tasks.length ∧
      (claimed = [] → st.tasks = [] →
        schedule_tasks st now = ({st with empty := true}, st.loop_delay)) ∧
      (claimed = [] → st.tasks ≠ [] →
        schedule_tasks st now = (st, st.loop_delay)) ∧
      (claimed ≠ [] →
        schedule_tasks st now =
          ({st with
              db := db2,
              empty := false,
              tasks := st.tasks ++ claimed.map (fun t => t.task_id),
              seen_modules := claimed.foldl
                (fun acc t => addSeen acc (modulePart t.task_path)) st.seen_modules,
              callbacks := st.callbacks ++
                claimed.map (fun t => (t.task_id, t.task_path, t.periodic))},
           if claimed.length = st.workers - st.tasks.length then 0 else st.loop_delay))) := by
  constructor
  · intro h
    rw [schedule_tasks]
    rw [if_pos (Nat.sub_eq_zero_of_le h)]
  · intro claimed db2 hav hget
    have hfst := congrArg Prod.fst hget
    dsimp only at hfst
    refine ⟨by rw [← hfst]; exact get_tasks_len _ _ _ _ _ _, ?_, ?_, ?_⟩
    · intro hc ht
      have hdb : db2 = st.db := get_tasks_nil _ _ _ _ _ _ _ _ hget hc
      rw [schedule_tasks]
      rw [if_neg (by omega : ¬(st.workers - st.tasks.length = 0))]
      simp only [hget, hc, hdb, if_true]
      rw [if_pos ht]
    · intro hc ht
      have hdb : db2 = st.db := get_tasks_nil _ _ _ _ _ _ _ _ hget hc
      rw [schedule_tasks]
      rw [if_neg (by omega : ¬(st.workers - st.tasks.length = 0))]
      simp only [hget, hc, hdb, if_true]
      rw [if_neg ht]
    · intro hc
      have hlen : claimed.length ≤ st.workers - st.tasks.length := by
        rw [← hfst]
        exact get_tasks_len _ _ _ _ _ _
      rw [schedule_tasks]
      rw [if_neg (by omega : ¬(st.workers - st.tasks.length = 0))]
      simp only [hget]
      rw [if_neg hc]
      by_cases he : claimed.length = st.workers - st.tasks.length
      · rw [if_pos he, if_pos (by omega)]
      · rw [if_neg he, if_neg (by omega)]

/-- A ready row and a fresh two-worker runner for the C8 witness. -/
def rec0 : TaskRec :=
  ⟨1, "app.mod.task", .ready, false, 0, ⟨0, 0⟩, none, none, "default", "q", []⟩

def st0 : Runner := ⟨2, 1, "default", ["q"], "w1", [], [], 0, false, [], [rec0]⟩

def now0 : DT := ⟨100, 0⟩

def claimedW : List TaskRec := [claimUpd now0 "w1" rec0]

/-- Witness for C8: one row claimed out of two available slots yields the
poll delay, the task in flight, the module seen and a callback. -/
theorem C8_schedule_tasks_witness :
    schedule_tasks st0 now0 =
      ({st0 with
          db := claimedW,
          empty := false,
          tasks := [1],
          seen_modules := ["app.mod"],
          callbacks := [(1, "app.mod.task", false)]}, (1 : ℚ)) := by
  have h := ((C8_schedule_tasks st0 now0).2 claimedW claimedW (by decide) (by rfl)).2.2.2
    (by decide)
  rw [h]
  rw [if_neg (by decide)]
  rfl

/-- In either calendar, a day-of-year that falls in February has
day-of-month at most 29. -/
theorem monthDay_feb_day_le (leap : Bool) (yd : Nat)
    (h2 : (monthDayOfYearDay leap yd).1 = 2)
    (h30 : 30 ≤ (monthDayOfYearDay leap yd).2) : False := by
  cases leap with
  | false =>
    rw [monthDayOfYearDay] at h2 h30
    norm_num [daysBeforeMonth] at h2 h30
    by_cases c1 : yd < 31
    · rw [if_pos c1] at h2; simp at h2
    · rw [if_neg c1] at h2 h30
      by_cases c2 : yd < 59
      · rw [if_pos c2] at h30; simp at h30; omega
      · rw [if_neg c2] at h2 h30
        by_cases c3 : yd < 90
        · rw [if_pos c3] at h2; simp at h2
        · rw [if_neg c3] at h2 h30
          by_cases c4 : yd < 120
          · rw [if_pos c4] at h2; simp at h2
          · rw [if_neg c4] at h2 h30
            by_cases c5 : yd < 151
            · rw [if_pos c5] at h2; simp at h2
            · rw [if_neg c5] at h2 h30
              by_cases c6 : yd < 181
              · rw [if_pos c6] at h2; simp at h2
              · rw [if_neg c6] at h2 h30
                by_cases c7 : yd < 212
                · rw [if_pos c7] at h2; simp at h2
                · rw [if_neg c7] at h2 h30
                  by_cases c8 : yd < 243
                  · rw [if_pos c8] at h2; simp at h2
                  · rw [if_neg c8] at h2 h30
                    by_cases c9 : yd < 273
                    · rw [if_pos c9] at h2; simp at h2
                    · rw [if_neg c9] at h2 h30
                      by_cases c10 : yd < 304
                      · rw [if_pos c10] at h2; simp at h2
                      · rw [if_neg c10] at h2 h30
                        by_cases c11 : yd < 334
                        · rw [if_pos c11] at h2; simp at h2
                        · rw [if_neg c11] at h2 h30
                          simp at h2
  | true =>
    rw [monthDayOfYearDay] at h2 h30
    norm_num [daysBeforeMonth] at h2 h30
    by_cases c1 : yd < 31
    · rw [if_pos c1] at h2; simp at h2
    · rw [if_neg c1] at h2 h30
      by_cases c2 : yd < 60
      · rw [if_pos c2] at h30; simp at h30; omega
      · rw [if_neg c2] at h2 h30
        by_cases c3 : yd < 91
        · rw [if_pos c3] at h2; simp at h2
        · rw [if_neg c3] at h2 h30
          by_cases c4 : yd < 121
          · rw [if_pos c4] at h2; simp at h2
          · rw [if_neg c4] at h2 h30
            by_cases c5 : yd < 152
            · rw [if_pos c5] at h2; simp at h2
            · rw [if_neg c5] at h2 h30
              by_cases c6 : yd < 182
              · rw [if_pos c6] at h2; simp at h2
              · rw [if_neg c6] at h2 h30
                by_cases c7 : yd < 213
                · rw [if_pos c7] at h2; simp at h2
                · rw [if_neg c7] at h2 h30
                  by_cases c8 : yd < 244
                  · rw [if_pos c8] at h2; simp at h2
                  · rw [if_neg c8] at h2 h30
                    by_cases c9 : yd < 274
                    · rw [if_pos c9] at h2; simp at h2
                    · rw [if_neg c9] at h2 h30
                      by_cases c10 : yd < 305
                      · rw [if_pos c10] at h2; simp at h2
                      · rw [if_neg c10] at h2 h30
                        by_cases c11 : yd < 335
                        · rw [if_pos c11] at h2; simp at h2
                        · rw [if_neg c11] at h2 h30
                          simp at h2

theorem civil_feb_day_le (n : Nat) (h2 : (civilFromDays n).2.1 = 2) :
    (civilFromDays n).2.2 ≤ 29 := by
  by_contra hc
  push_neg at hc
  simp only [civilFromDays] at h2 hc
  exact monthDay_feb_day_le _ _ h2 hc

/-- The resolved form of `Crontab("0 0 31 2 *")`: midnight of February 31,
a date that never exists. -/
def cFeb31 : Crontab :=
  ⟨[0], [0], [31], [2], CrontabParser.intRange 0 7, true, false⟩

/-- `Crontab("0 0 31 2 *")` matches no instant: the month constraint puts
the instant in February, where the day of month is at most 29, never 31. -/
theorem cFeb31_never (t : DT) : cFeb31.matchDT t = false := by
  cases hb : cFeb31.matchDT t with
  | false => rfl
  | true =>
    exfalso
    rw [Crontab.matchDT_iff] at hb
    obtain ⟨_, _, h3, h4⟩ := hb
    rw [if_neg (by simp [cFeb31])] at h4
    have hm : t.monthOf = 2 := by
      simp only [cFeb31, List.mem_singleton] at h3
      omega
    have hd : t.dayOf = 31 := by
      have h5 := h4.1
      simp only [cFeb31, List.mem_singleton] at h5
      omega
    have hle : t.dayOf ≤ 29 := civil_feb_day_le t.dayNum hm
    omega

/-- A periodic registry holding a single schedule that can never fire. -/
def reg7 : List (String × Crontab) := [("app.tasks.monthly", cFeb31)]

/-- 2025-03-01 00:00. -/
def now7 : DT := mkDT 2025 3 1 0 0

/-- 2026-03-01 00:00, the default `until` for `now7`. -/
def u7 : DT := mkDT 2026 3 1 0 0

/-! ## Periodic scheduling (`init_periodic`, `task_done`) (C7) -/

/-- `self.periodic.get(task_path)` (keys are distinct, so first-match
lookup coincides with the dict). -/
def lookupPath : List (String × Crontab) → String → Option Crontab
  | [], _ => none
  | p :: rest, k => if p.1 = k then some p.2 else lookupPath rest k

/-- `ScheduledTask.objects.create(task_path=..., backend=..., run_after=...,
periodic=True)`: a fresh READY periodic row (args/kwargs omitted, default
priority and queue). -/
def mkPending (path : String) (idv : Nat) (balias : String) (now d : DT) : TaskRec :=
  ⟨idv, path, .ready, true, 0, now, some d, none, balias, "default", []⟩

/-- The creation loop of `init_periodic`: one fresh pending row per
registered schedule, each stamped with that schedule's next occurrence
after `now`; a `CrontabExhausted`/`ValueError` escaping `schedule.next()`
aborts the call. -/
def initAux (balias : String) (now : DT) (ids : Nat → Nat) :
    Nat → List (String × Crontab) → Except CronErr (List TaskRec)
  | _, [] => .ok []
  | i, pc :: rest =>
    match pc.2.nextD now with
    | .error e => .error e
    | .ok d =>
      match initAux balias now ids (i + 1) rest with
      | .error e => .error e
      | .ok recs => .ok (mkPending pc.1 (ids i) balias now d :: recs)

/-- `Runner.init_periodic()`: delete every READY periodic row, then insert
one fresh pending row per registered schedule.  `ids` supplies the fresh
primary keys. -/
def init_periodic (reg : List (String × Crontab)) (balias : String) (now : DT)
    (ids : Nat → Nat) (db : List TaskRec) : Except CronErr (List TaskRec) :=
  match initAux balias now ids 0 reg with
  | .error e => .error e
  | .ok recs =>
    .ok (db.filter (fun r => !(decide (r.status = .ready) && r.periodic)) ++ recs)

/-- The persistent effect of `Runner.task_done`: if the finished task was
periodic and its path is still registered, compute the schedule's next
occurrence and insert one fresh READY periodic successor; an exception
from `schedule.next()` aborts the callback before the insert.  (The
in-memory bookkeeping — the processed counter, the in-flight map and the
per-task wait events — does not touch the table.) -/
def task_done (reg : List (String × Crontab)) (balias : String) (now : DT)
    (newId : Nat) (path : String) (was_periodic : Bool) (db : List TaskRec) :
    List TaskRec :=
  if was_periodic then
    match lookupPath reg path with
    | some c =>
      match c.nextD now with
      | .ok d => db ++ [mkPending path newId balias now d]
      | .error _ => db
    | none => db
  else db

/-- Number of READY periodic rows for task path `p`. -/
def countReadyPeriodic (db : List TaskRec) (p : String) : Nat :=
  (db.filter (fun r => decide (r.status = .ready) && r.periodic && decide (r.task_path = p))).length

theorem Crontab.nextD_ok_lt (c : Crontab) (a d : DT) (h : c.nextD a = .ok d) : a < d := by
  have hd : c.nextD a = (match a.replaceYearPlusOne with
    | none => .error .valueError
    | some u => c.nextW a u) := rfl
  rw [hd] at h
  cases hr : a.replaceYearPlusOne with
  | none => rw [hr] at h; exact absurd h (by simp)
  | some u =>
    rw [hr] at h
    exact (Crontab.nextW_ok_bounds c a u d h).1

theorem countReadyPeriodic_append (x y : List TaskRec) (p : String) :
    countReadyPeriodic (x ++ y) p = countReadyPeriodic x p + countReadyPeriodic y p := by
  rw [countReadyPeriodic, List.filter_append, List.length_append]
  rfl

theorem countReadyPeriodic_deleted (db : List TaskRec) (p : String) :
    countReadyPeriodic
      (db.filter (fun r => !(decide (r.status = .ready) && r.periodic))) p = 0 := by
  rw [countReadyPeriodic, List.length_eq_zero, List.filter_eq_nil]
  intro r hr h2
  have h1 := (List.mem_filter.mp hr).2
  simp only [Bool.and_eq_true] at h2
  rw [h2.1.1, h2.1.2] at h1
  simp at h1

/-- Occurrences of a key in a list of keys (multiplicity of a task path in
the registry). -/
def countKeys : List String → String → Nat
  | [], _ => 0
  | k :: rest, p => (if k = p then 1 else 0) + countKeys rest p

theorem countKeys_eq_zero (keys : List String) (p : String)
    (hm : p ∉ keys) : countKeys keys p = 0 := by
  induction keys with
  | nil => rfl
  | cons k rest ih =>
    by_cases hk : k = p
    · subst hk
      exact absurd (List.mem_cons_self k rest) hm
    · rw [countKeys, if_neg hk, ih (fun hc => hm (List.mem_cons_of_mem k hc))]

theorem countKeys_eq_one (keys : List String) (p : String)
    (hnd : keys.Nodup) (hm : p ∈ keys) : countKeys keys p = 1 := by
  induction keys with
  | nil => cases hm
  | cons k rest ih =>
    rw [List.nodup_cons] at hnd
    rw [countKeys]
    cases List.mem_cons.mp hm with
    | inl he =>
      subst he
      rw [if_pos rfl, countKeys_eq_zero rest p hnd.1]
    | inr hr =>
      by_cases hk : k = p
      · subst hk
        exact absurd hr hnd.1
      · rw [ih hnd.2 hr, if_neg hk]

theorem initAux_count (balias : String) (now : DT) (ids : Nat → Nat) (p : String) :
    ∀ (reg : List (String × Crontab)) (i : Nat) (recs : List TaskRec),
      initAux balias now ids i reg = .ok recs →
      countReadyPeriodic recs p = countKeys (reg.map Prod.fst) p := by
  intro reg
  induction reg with
  | nil =>
    intro i recs h
    rw [initAux] at h
    have : ([] : List TaskRec) = recs := Except.ok.inj h
    subst this
    rfl
  | cons pc rest ih =>
    intro i recs h
    rw [initAux] at h
    cases hn : pc.2.nextD now with
    | error e => simp [hn] at h
    | ok d =>
      simp only [hn] at h
      cases hr : initAux balias now ids (i + 1) rest with
      | error e => simp [hr] at h
      | ok recs2 =>
        simp only [hr] at h
        have : mkPending pc.1 (ids i) balias now d :: recs2 = recs := Except.ok.inj h
        subst this
        have hrest := ih (i + 1) recs2 hr
        rw [List.map_cons, countKeys, ← hrest]
        rw [countReadyPeriodic, countReadyPeriodic]
        by_cases hp : pc.1 = p
        · rw [List.filter_cons_of_pos (by simp [mkPending, hp])]
          rw [List.length_cons, if_pos hp]
          omega
        · rw [List.filter_cons_of_neg (by simp [mkPending, hp])]
          rw [if_neg hp]
          omega

theorem init_periodic_count (reg : List (String × Crontab)) (balias : String)
    (now : DT) (ids : Nat → Nat) (db db2 : List TaskRec) (p : String)
    (h : init_periodic reg balias now ids db = .ok db2) :
    countReadyPeriodic db2 p = countKeys (reg.map Prod.fst) p := by
  rw [init_periodic] at h
  cases hA : initAux balias now ids 0 reg with
  | error e => simp [hA] at h
  | ok recs =>
    simp only [hA] at h
    have hdb : db.filter (fun r => !(decide (r.status = .ready) && r.periodic)) ++ recs
        = db2 := Except.ok.inj h
    rw [← hdb, countReadyPeriodic_append, countReadyPeriodic_deleted,
      initAux_count balias now ids p reg 0 recs hA]
    omega

theorem task_done_ok (reg : List (String × Crontab)) (balias : String) (now : DT)
    (newId : Nat) (path : String) (c : Crontab) (d : DT) (db : List TaskRec)
    (hlook : lookupPath reg path = some c) (hnext : c.nextD now = .ok d) :
    task_done reg balias now newId path true db
      = db ++ [mkPending path newId balias now d] := by
  have ht : task_done reg balias now newId path true db =
      (match lookupPath reg path with
       | some c2 =>
         (match c2.nextD now with
          | .ok d2 => db ++ [mkPending path newId balias now d2]
          | .error _ => db)
       | none => db) := by
    rw [task_done, if_pos rfl]
  rw [ht, hlook]
  dsimp only
  rw [hnext]

theorem task_done_next_fails (reg : List (String × Crontab)) (balias : String)
    (now : DT) (newId : Nat) (path : String) (c : Crontab) (db : List TaskRec)
    (hlook : lookupPath reg path = some c) (hfail : ∀ d, c.nextD now ≠ .ok d) :
    task_done reg balias now newId path true db = db := by
  have ht : task_done reg balias now newId path true db =
      (match lookupPath reg path with
       | some c2 =>
         (match c2.nextD now with
          | .ok d2 => db ++ [mkPending path newId balias now d2]
          | .error _ => db)
       | none => db) := by
    rw [task_done, if_pos rfl]
  rw [ht, hlook]
  dsimp only
  cases hn : c.nextD now with
  | ok d => exact absurd hn (hfail d)
  | error e => rfl

theorem task_done_unregistered (reg : List (String × Crontab)) (balias : String)
    (now : DT) (newId : Nat) (path : String) (db : List TaskRec)
    (hlook : lookupPath reg path = none) :
    task_done reg balias now newId path true db = db := by
  have ht : task_done reg balias now newId path true db =
      (match lookupPath reg path with
       | some c2 =>
         (match c2.nextD now with
          | .ok d2 => db ++ [mkPending path newId balias now d2]
          | .error _ => db)
       | none => db) := by
    rw [task_done, if_pos rfl]
  rw [ht, hlook]

theorem task_done_not_periodic (reg : List (String × Crontab)) (balias : String)
    (now : DT) (newId : Nat) (path : String) (db : List TaskRec) :
    task_done reg balias now newId path false db = db := by
  rw [task_done, if_neg (by simp)]

/-- C7 counterexample: periodicity alone does not guarantee the successor
insert.  `Crontab("0 0 31 2 *")` parses, but matches no instant ever, so
its `next()` raises `CrontabExhausted`; a completed periodic task whose
path is registered with this schedule therefore inserts *no* READY
successor (in Python the exception escapes `task_done` before the
create), refuting the claim's "if and only if the completed task was
periodic and a schedule is still registered". -/
theorem C7_counterexample :
    Crontab.ofSpec zeroRand "0 0 31 2 *" = .ok cFeb31 ∧
    lookupPath reg7 "app.tasks.monthly" = some cFeb31 ∧
    cFeb31.nextD now7 = .error .exhausted ∧
    task_done reg7 "default" now7 5 "app.tasks.monthly" true [] = [] := by
  have hr : now7.replaceYearPlusOne = some u7 := by rfl
  have hd : cFeb31.nextD now7 = (match now7.replaceYearPlusOne with
      | none => Except.error CronErr.valueError
      | some u => cFeb31.nextW now7 u) := rfl
  have hex : cFeb31.nextD now7 = .error .exhausted := by
    rw [hd, hr]
    exact Crontab.nextW_exhausted_intro cFeb31 now7 u7 rfl (fun m _ _ => cFeb31_never ⟨m, 0⟩)
  refine ⟨by rfl, by rfl, hex, ?_⟩
  exact task_done_next_fails reg7 "default" now7 5 "app.tasks.monthly" cFeb31 []
    (by rfl) (fun d hd => Except.noConfusion (hex.symm.trans hd))

/-- C7 (amended): `init_periodic` deletes every READY periodic row and
then inserts exactly one per registered schedule (so a second run still
leaves exactly one per schedule, and unregistered paths have none);
`task_done` of a periodic completion whose path is still registered
inserts exactly one READY periodic successor with `run_after` strictly in
the future **provided the schedule's `next()` succeeds** — when `next()`
fails (exhaustion or the Feb-29 `ValueError`), and likewise when the path
is unregistered or the completion was not periodic, nothing is
inserted. -/
theorem C7_periodic_amended :
    (∀ (reg : List (String × Crontab)) (balias : String) (now : DT)
        (ids : Nat → Nat) (db db2 : List TaskRec),
        (reg.map Prod.fst).Nodup →
        init_periodic reg balias now ids db = .ok db2 →
        (∀ pc ∈ reg, countReadyPeriodic db2 pc.1 = 1) ∧
        (∀ p, p ∉ reg.map Prod.fst → countReadyPeriodic db2 p = 0)) ∧
    (∀ (reg : List (String × Crontab)) (balias balias2 : String) (now now2 : DT)
        (ids ids2 : Nat → Nat) (db db2 db3 : List TaskRec),
        (reg.map Prod.fst).Nodup →
        init_periodic reg balias now ids db = .ok db2 →
        init_periodic reg balias2 now2 ids2 db2 = .ok db3 →
        ∀ pc ∈ reg, countReadyPeriodic db3 pc.1 = 1) ∧
    (∀ (reg : List (String × Crontab)) (balias : String) (now : DT)
        (newId : Nat) (path : String) (c : Crontab) (d : DT) (db : List TaskRec),
        lookupPath reg path = some c →
        c.nextD now = .ok d →
        task_done reg balias now newId path true db =
          db ++ [mkPending path newId balias now d] ∧
        now < d ∧
        (mkPending path newId balias now d).status = TStatus.ready ∧
        (mkPending path newId balias now d).periodic = true ∧
        (mkPending path newId balias now d).run_after = some d) ∧
    (∀ (reg : List (String × Crontab)) (balias : String) (now : DT)
        (newId : Nat) (path : String) (c : Crontab) (db : List TaskRec),
        lookupPath reg path = some c →
        (∀ d, c.nextD now ≠ .ok d) →
        task_done reg balias now newId path true db = db) ∧
    (∀ (reg : List (String × Crontab)) (balias : String) (now : DT)
        (newId : Nat) (path : String) (db : List TaskRec),
        lookupPath reg path = none →
        task_done reg balias now newId path true db = db) ∧
    (∀ (reg : List (String × Crontab)) (balias : String) (now : DT)
        (newId : Nat) (path : String) (db : List TaskRec),
        task_done reg balias now newId path false db = db) := by
  refine ⟨?_, ?_, ?_, ?_, ?_, ?_⟩
  · intro reg balias now ids db db2 hnd hinit
    constructor
    · intro pc hpc
      rw [init_periodic_count reg balias now ids db db2 pc.1 hinit]
      exact countKeys_eq_one _ _ hnd (List.mem_map_of_mem Prod.fst hpc)
    · intro p hp
      rw [init_periodic_count reg balias now ids db db2 p hinit]
      exact countKeys_eq_zero _ _ hp
  · intro reg balias balias2 now now2 ids ids2 db db2 db3 hnd _ hinit2 pc hpc
    rw [init_periodic_count reg balias2 now2 ids2 db2 db3 pc.1 hinit2]
    exact countKeys_eq_one _ _ hnd (List.mem_map_of_mem Prod.fst hpc)
  · intro reg balias now newId path c d db hlook hnext
    exact ⟨task_done_ok reg balias now newId path c d db hlook hnext,
      Crontab.nextD_ok_lt c now d hnext, rfl, rfl, rfl⟩
  · intro reg balias now newId path c db hlook hfail
    exact task_done_next_fails reg balias now newId path c db hlook hfail
  · intro reg balias now newId path db hlook
    exact task_done_unregistered reg balias now newId path db hlook
  · intro reg balias now newId path db
    exact task_done_not_periodic reg balias now newId path db

/-- A registry holding one always-firing schedule, for the witness. -/
def regW : List (String × Crontab) := [("app.tasks.beat", cStar)]

/-- 2025-01-01 00:00. -/
def nowW : DT := ⟨1440 * 739251, 0⟩

/-- 2025-01-01 00:01, the all-star schedule's next occurrence. -/
def dW : DT := ⟨1440 * 739251 + 1, 0⟩

/-- The single row `init_periodic` creates for `regW`. -/
def pendW : TaskRec := mkPending "app.tasks.beat" 0 "default" nowW dW

theorem C7_periodic_amended_witness :
    countReadyPeriodic [pendW] "app.tasks.beat" = 1 ∧
    task_done regW "default" nowW 1 "app.tasks.beat" true [] =
      [mkPending "app.tasks.beat" 1 "default" nowW dW] ∧
    nowW < dW := by
  have h := C7_periodic_amended
  refine ⟨?_, ?_, ?_⟩
  · exact (h.1 regW "default" nowW (fun i => i) [] [pendW] (by simp [regW]) (by rfl)).1
      ("app.tasks.beat", cStar) (List.mem_singleton_self _)
  · exact (h.2.2.1 regW "default" nowW 1 "app.tasks.beat" cStar dW []
      (by rfl) (by rfl)).1
  · exact (h.2.2.1 regW "default" nowW 1 "app.tasks.beat" cStar dW []
      (by rfl) (by rfl)).2.1


/-! ## Claim exclusivity across claimers (C9) -/

theorem map_congr_mem {A B : Type} (f g : A → B) :
    ∀ (l : List A), (∀ a ∈ l, f a = g a) → l.map f = l.map g := by
  intro l
  induction l with
  | nil => intro _; rfl
  | cons x xs ih =>
    intro h
    rw [List.map_cons, List.map_cons, h x (List.mem_cons_self x xs),
      ih (fun a ha => h a (List.mem_cons_of_mem x ha))]

theorem filter_congr_mem {A : Type} (p q : A → Bool) :
    ∀ (l : List A), (∀ a ∈ l, p a = q a) → l.filter p = l.filter q := by
  intro l
  induction l with
  | nil => intro _; rfl
  | cons x xs ih =>
    intro h
    rw [List.filter_cons, List.filter_cons, h x (List.mem_cons_self x xs),
      ih (fun a ha => h a (List.mem_cons_of_mem x ha))]

theorem filter_map_comm {A B : Type} (f : A → B) (p : B → Bool) :
    ∀ (l : List A), (l.map f).filter p = (l.filter (fun a => p (f a))).map f := by
  intro l
  induction l with
  | nil => rfl
  | cons x xs ih =>
    rw [List.map_cons, List.filter_cons, List.filter_cons]
    by_cases h : p (f x)
    · rw [if_pos h, if_pos h, List.map_cons, ih]
    · rw [if_neg h, if_neg h, ih]

theorem filter_filter_comm {A : Type} (p q : A → Bool) :
    ∀ (l : List A), (l.filter p).filter q = l.filter (fun a => q a && p a) := by
  intro l
  induction l with
  | nil => rfl
  | cons x xs ih =>
    rw [List.filter_cons]
    by_cases hp : p x
    · rw [if_pos hp, List.filter_cons, List.filter_cons]
      by_cases hq : q x
      · rw [if_pos hq, if_pos (by simp [hp, hq]), ih]
      · rw [if_neg hq, if_neg (by simp [hq]), ih]
    · rw [if_neg hp, List.filter_cons, if_neg (by simp [hp]), ih]

theorem nodup_of_sublist {A : Type} {l1 l2 : List A} (s : List.Sublist l1 l2)
    (h : l2.Nodup) : l1.Nodup := List.Pairwise.sublist s h

theorem insertBy_perm (le : TaskRec → TaskRec → Bool) (x : TaskRec) (l : List TaskRec) :
    List.Perm (insertBy le x l) (x :: l) := by
  induction l with
  | nil => exact List.Perm.refl _
  | cons y ys ih =>
    rw [insertBy]
    by_cases h : le x y
    · rw [if_pos h]
    · rw [if_neg h]
      exact (ih.cons y).trans (List.Perm.swap x y ys)

theorem sortBy_perm (le : TaskRec → TaskRec → Bool) (l : List TaskRec) :
    List.Perm (sortBy le l) l := by
  induction l with
  | nil => exact List.Perm.refl _
  | cons x xs ih =>
    exact (insertBy_perm le x (sortBy le xs)).trans (ih.cons x)

theorem claimUpd_not_elig (balias : String) (queues : List String) (now now2 : DT)
    (wid : String) (r : TaskRec) :
    eligB balias queues now2 (claimUpd now wid r) = false := by
  simp [eligB, claimUpd]

/-- Number of rows eligible for claiming (`M`, the READY pool size). -/
def eligCount (balias : String) (queues : List String) (now : DT)
    (db : List TaskRec) : Nat :=
  (db.filter (eligB balias queues now)).length

/-- Primary keys of the rows eligible for claiming. -/
def eligIds (balias : String) (queues : List String) (now : DT)
    (db : List TaskRec) : List Nat :=
  (db.filter (eligB balias queues now)).map TaskRec.task_id

theorem eligIds_nodup (balias : String) (queues : List String) (now : DT)
    (db : List TaskRec) (hnd : (db.map TaskRec.task_id).Nodup) :
    (eligIds balias queues now db).Nodup :=
  nodup_of_sublist ((List.filter_sublist db).map TaskRec.task_id) hnd

/-- The ordered prefix the claim transaction selects and locks. -/
def claimSel (balias : String) (queues : List String) (now : DT) (n : Nat)
    (db : List TaskRec) : List TaskRec :=
  (sortBy claimLE (db.filter (eligB balias queues now))).take n

theorem get_tasks_claim_spec (balias : String) (queues : List String) (wid : String)
    (now : DT) (n : Nat) (db : List TaskRec)
    (hnd : (db.map TaskRec.task_id).Nodup) :
    List.Perm
      (((get_tasks balias queues wid now n db).1.map TaskRec.task_id)
        ++ eligIds balias queues now (get_tasks balias queues wid now n db).2)
      (eligIds balias queues now db) ∧
    (get_tasks balias queues wid now n db).2.map TaskRec.task_id
      = db.map TaskRec.task_id ∧
    (get_tasks balias queues wid now n db).1.length
      = min n (eligCount balias queues now db) := by
  by_cases hn : n = 0
  · subst hn
    have hg : get_tasks balias queues wid now 0 db = ([], db) := rfl
    rw [hg]
    refine ⟨?_, rfl, ?_⟩
    · simp only [List.map_nil, List.nil_append]
      exact List.Perm.refl _
    · simp
  · have hg : get_tasks balias queues wid now n db =
        ((claimSel balias queues now n db).map (claimUpd now wid),
         db.map (fun r =>
           if r.task_id ∈ (claimSel balias queues now n db).map TaskRec.task_id
           then claimUpd now wid r else r)) := by
      rw [get_tasks, if_neg hn]
      rfl
    rw [hg]
    have hsub0 : List.Sublist (claimSel balias queues now n db)
        (sortBy claimLE (db.filter (eligB balias queues now))) :=
      List.take_sublist n _
    have hpermS : List.Perm (sortBy claimLE (db.filter (eligB balias queues now)))
        (db.filter (eligB balias queues now)) := sortBy_perm _ _
    have hFids : ((db.filter (eligB balias queues now)).map TaskRec.task_id).Nodup :=
      nodup_of_sublist ((List.filter_sublist db).map TaskRec.task_id) hnd
    have hSids : ((sortBy claimLE (db.filter (eligB balias queues now))).map
        TaskRec.task_id).Nodup :=
      ((hpermS.map TaskRec.task_id).nodup_iff).mpr hFids
    have hcids_nodup : ((claimSel balias queues now n db).map TaskRec.task_id).Nodup :=
      nodup_of_sublist (hsub0.map TaskRec.task_id) hSids
    have hmemF : ∀ r ∈ claimSel balias queues now n db,
        r ∈ db.filter (eligB balias queues now) :=
      fun r hr => (hpermS.mem_iff).mp (hsub0.subset hr)
    -- the table keeps its keys
    have hA : (db.map (fun r =>
        if r.task_id ∈ (claimSel balias queues now n db).map TaskRec.task_id
        then claimUpd now wid r else r)).map TaskRec.task_id = db.map TaskRec.task_id := by
      rw [List.map_map]
      refine map_congr_mem _ _ db ?_
      intro r _
      show TaskRec.task_id (if r.task_id ∈ (claimSel balias queues now n db).map
          TaskRec.task_id then claimUpd now wid r else r) = r.task_id
      by_cases h : r.task_id ∈ (claimSel balias queues now n db).map TaskRec.task_id
      · rw [if_pos h]; rfl
      · rw [if_neg h]
    -- the rows still eligible after the claim
    have helig2 : eligIds balias queues now (db.map (fun r =>
        if r.task_id ∈ (claimSel balias queues now n db).map TaskRec.task_id
        then claimUpd now wid r else r)) =
        ((db.filter (eligB balias queues now)).filter
          (fun r => !(decide (r.task_id ∈
            (claimSel balias queues now n db).map TaskRec.task_id)))).map
          TaskRec.task_id := by
      rw [eligIds, filter_map_comm, List.map_map]
      rw [map_congr_mem _ TaskRec.task_id _ (fun r _ => by
        show TaskRec.task_id (if r.task_id ∈ (claimSel balias queues now n db).map
            TaskRec.task_id then claimUpd now wid r else r) = r.task_id
        by_cases h : r.task_id ∈ (claimSel balias queues now n db).map TaskRec.task_id
        · rw [if_pos h]; rfl
        · rw [if_neg h])]
      rw [filter_congr_mem _ (fun r => (!(decide (r.task_id ∈
          (claimSel balias queues now n db).map TaskRec.task_id))) &&
          eligB balias queues now r) db (fun r _ => by
        show eligB balias queues now (if r.task_id ∈ (claimSel balias queues now n db).map
            TaskRec.task_id then claimUpd now wid r else r) = _
        by_cases h : r.task_id ∈ (claimSel balias queues now n db).map TaskRec.task_id
        · rw [if_pos h]
          simp [claimUpd_not_elig, h]
        · rw [if_neg h]
          simp [h])]
      rw [← filter_filter_comm (eligB balias queues now)
        (fun r => !(decide (r.task_id ∈
          (claimSel balias queues now n db).map TaskRec.task_id))) db]
    -- the claimed keys are exactly the eligible keys selected
    have hcidsP : List.Perm
        (((db.filter (eligB balias queues now)).filter
          (fun r => decide (r.task_id ∈
            (claimSel balias queues now n db).map TaskRec.task_id))).map TaskRec.task_id)
        ((claimSel balias queues now n db).map TaskRec.task_id) := by
      rw [List.perm_ext_iff_of_nodup
        (nodup_of_sublist ((List.filter_sublist _).map TaskRec.task_id) hFids)
        hcids_nodup]
      intro a
      constructor
      · intro ha
        obtain ⟨r, hr, hre⟩ := List.mem_map.mp ha
        have hmem := List.mem_filter.mp hr
        rw [← hre]
        exact of_decide_eq_true hmem.2
      · intro ha
        obtain ⟨r0, hr0, hre0⟩ := List.mem_map.mp ha
        refine List.mem_map.mpr ⟨r0, List.mem_filter.mpr ⟨hmemF r0 hr0, ?_⟩, hre0⟩
        exact decide_eq_true (hre0 ▸ ha)
    refine ⟨?_, hA, ?_⟩
    · have hclids : ((claimSel balias queues now n db).map (claimUpd now wid)).map
          TaskRec.task_id = (claimSel balias queues now n db).map TaskRec.task_id := by
        rw [List.map_map]
        exact map_congr_mem _ _ _ (fun r _ => rfl)
      rw [hclids, helig2, eligIds]
      have hsplit := List.filter_append_perm
        (fun r => decide (r.task_id ∈
          (claimSel balias queues now n db).map TaskRec.task_id))
        (db.filter (eligB balias queues now))
      have hsplit2 := hsplit.map TaskRec.task_id
      rw [List.map_append] at hsplit2
      refine List.Perm.trans ?_ hsplit2
      exact List.Perm.append hcidsP.symm (List.Perm.refl _)
    · rw [List.length_map, claimSel, List.length_take, eligCount,
        (sortBy_perm claimLE (db.filter (eligB balias queues now))).length_eq]

/-- `N` claim transactions run back to back against the shared table: the
store's durable atomic row-locking transaction (the spec's assumed
mutual-exclusion primitive) serializes concurrent `get_tasks` calls, so
every interleaving is equivalent to some such sequence.  Each request
carries its worker id and its row budget; the function returns all
claimed rows in order together with the final table. -/
def multiClaim (balias : String) (queues : List String) (now : DT) :
    List (String × Nat) → List TaskRec → List TaskRec × List TaskRec
  | [], db => ([], db)
  | wk :: reqs, db =>
    let res := get_tasks balias queues wk.1 now wk.2 db
    let rest := multiClaim balias queues now reqs res.2
    (res.1 ++ rest.1, rest.2)

theorem multiClaim_spec (balias : String) (queues : List String) (now : DT) :
    ∀ (reqs : List (String × Nat)) (db : List TaskRec),
      (db.map TaskRec.task_id).Nodup →
      List.Perm
        (((multiClaim balias queues now reqs db).1.map TaskRec.task_id)
          ++ eligIds balias queues now (multiClaim balias queues now reqs db).2)
        (eligIds balias queues now db) ∧
      (multiClaim balias queues now reqs db).2.map TaskRec.task_id
        = db.map TaskRec.task_id ∧
      (multiClaim balias queues now reqs db).1.length
        = min (eligCount balias queues now db) (reqs.map Prod.snd).sum := by
  intro reqs
  induction reqs with
  | nil =>
    intro db hnd
    refine ⟨?_, rfl, ?_⟩
    · simp only [multiClaim, List.map_nil, List.nil_append]
      exact List.Perm.refl _
    · simp [multiClaim]
  | cons wk reqs ih =>
    intro db hnd
    have hmc : multiClaim balias queues now (wk :: reqs) db =
        ((get_tasks balias queues wk.1 now wk.2 db).1
           ++ (multiClaim balias queues now reqs
                (get_tasks balias queues wk.1 now wk.2 db).2).1,
         (multiClaim balias queues now reqs
           (get_tasks balias queues wk.1 now wk.2 db).2).2) := rfl
    obtain ⟨h1p, h1i, h1l⟩ := get_tasks_claim_spec balias queues wk.1 now wk.2 db hnd
    have hnd2 : ((get_tasks balias queues wk.1 now wk.2 db).2.map TaskRec.task_id).Nodup := by
      rw [h1i]; exact hnd
    obtain ⟨h2p, h2i, h2l⟩ := ih (get_tasks balias queues wk.1 now wk.2 db).2 hnd2
    rw [hmc]
    refine ⟨?_, ?_, ?_⟩
    · rw [List.map_append, List.append_assoc]
      exact (List.Perm.append_left _ h2p).trans h1p
    · rw [h2i, h1i]
    · rw [List.length_append, h1l, h2l]
      have hlen := h1p.length_eq
      rw [List.length_append, List.length_map] at hlen
      have he1 : (eligIds balias queues now
          (get_tasks balias queues wk.1 now wk.2 db).2).length
          = eligCount balias queues now (get_tasks balias queues wk.1 now wk.2 db).2 := by
        rw [eligIds, eligCount, List.length_map]
      have he2 : (eligIds balias queues now db).length
          = eligCount balias queues now db := by
        rw [eligIds, eligCount, List.length_map]
      rw [he1, he2] at hlen
      simp only [List.map_cons, List.sum_cons]
      omega

/-- C9: claim exclusivity.  Any serialization of N concurrent
`get_tasks` invocations (each requesting up to its own `K` rows) against
a table with distinct primary keys claims every row at most once: the
concatenation of all claimed rows has duplicate-free keys, each claimed
key belonged to an eligible READY row of the starting table, and the
total number of claimed rows is `min(M, ΣK)` where `M` is the starting
READY pool size.  Concurrency is resolved by the store's atomic
row-locking claim transaction, which the spec assumes as its sole
mutual-exclusion primitive, so interleaved executions coincide with
these serializations. -/
theorem C9_claim_exclusivity (balias : String) (queues : List String) (now : DT)
    (reqs : List (String × Nat)) (db : List TaskRec)
    (hnd : (db.map TaskRec.task_id).Nodup) :
    ((multiClaim balias queues now reqs db).1.map TaskRec.task_id).Nodup ∧
    (∀ a ∈ (multiClaim balias queues now reqs db).1.map TaskRec.task_id,
      a ∈ eligIds balias queues now db) ∧
    (multiClaim balias queues now reqs db).1.length
      = min (eligCount balias queues now db) (reqs.map Prod.snd).sum := by
  obtain ⟨hp, _, hl⟩ := multiClaim_spec balias queues now reqs db hnd
  refine ⟨?_, ?_, hl⟩
  · have hnodup : ((multiClaim balias queues now reqs db).1.map TaskRec.task_id
        ++ eligIds balias queues now (multiClaim balias queues now reqs db).2).Nodup :=
      (hp.nodup_iff).mpr (eligIds_nodup balias queues now db hnd)
    exact List.Nodup.of_append_left hnodup
  · intro a ha
    exact (hp.mem_iff).mp (List.mem_append.mpr (Or.inl ha))

/-- Three eligible READY rows with distinct keys, for the witness. -/
def rA : TaskRec :=
  ⟨1, "app.a.t", .ready, false, 0, ⟨0, 0⟩, none, none, "default", "q", []⟩

def rB : TaskRec := {rA with task_id := 2}

def rC : TaskRec := {rA with task_id := 3}

def db9 : List TaskRec := [rA, rB, rC]

/-- Two claimers asking for two rows each. -/
def reqs9 : List (String × Nat) := [("w1", 2), ("w2", 2)]

theorem C9_claim_exclusivity_witness :
    (db9.map TaskRec.task_id).Nodup ∧
    ((multiClaim "default" ["q"] ⟨5, 0⟩ reqs9 db9).1.map TaskRec.task_id).Nodup ∧
    (multiClaim "default" ["q"] ⟨5, 0⟩ reqs9 db9).1.length = 3 := by
  have h := C9_claim_exclusivity "default" ["q"] ⟨5, 0⟩ reqs9 db9 (by decide)
  refine ⟨by decide, h.1, ?_⟩
  rw [h.2.2]
  rfl

end DbTasks
